import Mathlib

/-!
# Verification of the chunked result-set core of `libsnowflakeclient`

A shallow embedding of the client-side query-result consumption engine
declared in `src/cpp/lib/ResultSet.hpp`.  The header in the repository
contains only declarations; the bodies of the lifecycle operations, the
cursor arithmetic and the typed cell accessors live outside the provided
sources, so those behaviours are modelled from the specification (each
such definition carries a doc comment saying so).  Enumerations, member
lists and documented contracts that do appear in the header are
translated from it directly.
-/

namespace SnowflakeClient

/-- Translated from the source: `enum QueryResultFormat { ARROW, JSON }`
(src/cpp/lib/ResultSet.hpp, lines 24-28). -/
inductive QueryResultFormat
  | ARROW
  | JSON
deriving DecidableEq, Repr

/-- Modelled from the spec: the error kinds of §7 of the specification
(the concrete `SF_STATUS` codes live in `snowflake/client.h`, which is not
part of the provided sources).  `Success` is the `0` status of the header
comments ("0 if successful, otherwise an error is returned"). -/
inductive SFStatus
  | Success
  | MalformedChunk
  | ColumnCountMismatch
  | InvalidState
  | EndOfResult
  | NoMoreColumns
  | TypeMismatch
  | OutOfRange
  | BufferTooSmall
deriving DecidableEq, Repr

/-- Modelled from the spec: the declared semantic column types of §3
(the C `SF_COLUMN_DESC` type lives in `snowflake/client.h`, outside the
provided sources). -/
inductive SemType
  | TBool
  | TInt8
  | TInt32
  | TInt64
  | TUInt8
  | TUInt32
  | TUInt64
  | TFloat64
  | TString
  | TTimestamp
deriving DecidableEq, Repr

/-- Modelled from the spec: a logical cell value.  Integral cells carry an
unbounded integer (width checks happen in the accessors); `float64` cells
carry an exact scaled decimal `m * 10^(-e)`; timestamp cells carry epoch
seconds, nanoseconds and the stored (non-negative, `+1440`-encoded)
timezone offset of §3. -/
inductive CellValue
  | nullV
  | boolV (b : Bool)
  | intV (i : Int)
  | decV (m : Int) (e : Nat)
  | strV (s : String)
  | tsV (secs : Int) (nanos : Nat) (tzStored : Nat)
deriving DecidableEq, Repr

/-! ## Decimal digit rendering and parsing

The row-oriented (JSON) variant stores every cell as text and re-parses it
on each access (spec §4.4).  The renderer below stands for the server's
textual encoder; the parser is the decode path of the JSON variant. -/

/-- The decimal digits of `n`, least significant first; `[]` for `0`. -/
def natDigitsRev : Nat → List Nat
  | 0 => []
  | n + 1 => (n + 1) % 10 :: natDigitsRev ((n + 1) / 10)
decreasing_by exact Nat.div_lt_self (Nat.succ_pos n) (by decide)

/-- The value of a least-significant-first digit list. -/
def valRev : List Nat → Nat
  | [] => 0
  | d :: ds => d + 10 * valRev ds

theorem valRev_natDigitsRev (n : Nat) : valRev (natDigitsRev n) = n := by
  induction n using Nat.strong_induction_on with
  | _ n ih =>
    match n with
    | 0 => simp [natDigitsRev, valRev]
    | n + 1 =>
      rw [natDigitsRev, valRev,
        ih ((n + 1) / 10) (Nat.div_lt_self (Nat.succ_pos n) (by decide))]
      omega

theorem mem_natDigitsRev_lt (n : Nat) : ∀ d ∈ natDigitsRev n, d < 10 := by
  induction n using Nat.strong_induction_on with
  | _ n ih =>
    match n with
    | 0 => simp [natDigitsRev]
    | n + 1 =>
      rw [natDigitsRev]
      intro d hd
      rcases List.mem_cons.mp hd with h | h
      · omega
      · exact ih ((n + 1) / 10) (Nat.div_lt_self (Nat.succ_pos n) (by decide)) d h

theorem natDigitsRev_length_le (e k : Nat) (h : k < 10 ^ e) :
    (natDigitsRev k).length ≤ e := by
  induction e generalizing k with
  | zero =>
    have : k = 0 := by simpa using h
    simp [this, natDigitsRev]
  | succ e ih =>
    match k with
    | 0 => simp [natDigitsRev]
    | k + 1 =>
      rw [natDigitsRev]
      have hdiv : (k + 1) / 10 < 10 ^ e := by
        rw [Nat.div_lt_iff_lt_mul (by decide : (0:Nat) < 10)]
        calc k + 1 < 10 ^ (e + 1) := h
        _ = 10 ^ e * 10 := by ring
      simpa using Nat.succ_le_succ (ih ((k + 1) / 10) hdiv)

theorem valRev_append (xs ys : List Nat) :
    valRev (xs ++ ys) = valRev xs + 10 ^ xs.length * valRev ys := by
  induction xs with
  | nil => simp [valRev]
  | cons d ds ih => simp [valRev, ih]; ring

theorem valRev_replicate_zero (z : Nat) : valRev (List.replicate z 0) = 0 := by
  induction z with
  | zero => simp [valRev]
  | succ z ih => simp [List.replicate_succ, valRev, ih]

/-- A digit character converted back to its value, when it is a digit. -/
def charToDigit (c : Char) : Option Nat :=
  if c.isDigit then some (c.toNat - 48) else none

theorem charToDigit_digitChar (d : Nat) (h : d < 10) :
    charToDigit (Nat.digitChar d) = some d := by
  interval_cases d <;> decide

theorem isDigit_digitChar (d : Nat) (h : d < 10) :
    (Nat.digitChar d).isDigit = true := by
  interval_cases d <;> decide

/-- Parses a run of characters all of which must be decimal digits. -/
def parseDigitList : List Char → Option (List Nat)
  | [] => some []
  | c :: cs =>
    match charToDigit c, parseDigitList cs with
    | some d, some ds => some (d :: ds)
    | _, _ => none

theorem parseDigitList_map_digitChar (l : List Nat) (h : ∀ d ∈ l, d < 10) :
    parseDigitList (l.map Nat.digitChar) = some l := by
  induction l with
  | nil => rfl
  | cons d ds ih =>
    have hd : d < 10 := h d (List.mem_cons_self d ds)
    have hds : ∀ x ∈ ds, x < 10 := fun x hx => h x (List.mem_cons_of_mem d hx)
    simp [parseDigitList, charToDigit_digitChar d hd, ih hds]

/-- The most-significant-first decimal rendering of a natural number. -/
def renderNatChars (n : Nat) : List Char :=
  if n = 0 then ['0'] else (natDigitsRev n).reverse.map Nat.digitChar

/-- Parses a whole character list as a natural number (all digits,
nonempty). -/
def parseNatFull (cs : List Char) : Option Nat :=
  match cs with
  | [] => none
  | _ => (parseDigitList cs).map (fun ds => valRev ds.reverse)

theorem renderNatChars_ne_nil (n : Nat) : renderNatChars n ≠ [] := by
  unfold renderNatChars
  split
  · simp
  · intro hcon
    rcases hn : natDigitsRev n with _ | ⟨d, ds⟩
    · cases n with
      | zero => simp at *
      | succ m => rw [natDigitsRev] at hn; cases hn
    · rw [hn] at hcon; simp at hcon

theorem mem_renderNatChars_isDigit (n : Nat) :
    ∀ c ∈ renderNatChars n, c.isDigit = true := by
  unfold renderNatChars
  split
  · intro c hc
    simp at hc
    subst hc
    decide
  · intro c hc
    simp at hc
    obtain ⟨d, hd, hrfl⟩ := hc
    subst hrfl
    exact isDigit_digitChar d (mem_natDigitsRev_lt n d hd)

theorem parseNatFull_renderNatChars (n : Nat) :
    parseNatFull (renderNatChars n) = some n := by
  by_cases h : n = 0
  · subst h; decide
  · unfold renderNatChars
    rw [if_neg h]
    have hne : (natDigitsRev n).reverse.map Nat.digitChar ≠ [] := by
      intro hcon
      have := renderNatChars_ne_nil n
      unfold renderNatChars at this
      rw [if_neg h] at this
      exact this hcon
    unfold parseNatFull
    have hlt : ∀ d ∈ (natDigitsRev n).reverse, d < 10 := by
      intro d hd
      exact mem_natDigitsRev_lt n d (List.mem_reverse.mp hd)
    rcases hl : (natDigitsRev n).reverse.map Nat.digitChar with _ | ⟨c, cs⟩
    · exact absurd hl hne
    · rw [← hl]
      have : parseDigitList ((natDigitsRev n).reverse.map Nat.digitChar) =
          some (natDigitsRev n).reverse := parseDigitList_map_digitChar _ hlt
      simp only [hl] at this ⊢
      simp [this, valRev_natDigitsRev n]

/-- Splits at the first occurrence of `sep`; the second component is
`none` when `sep` never occurs. -/
def splitAtChar (sep : Char) : List Char → List Char × Option (List Char)
  | [] => ([], none)
  | c :: cs =>
    if c = sep then ([], some cs)
    else
      let p := splitAtChar sep cs
      (c :: p.1, p.2)

theorem splitAtChar_append (sep : Char) (xs ys : List Char)
    (h : ∀ c ∈ xs, c ≠ sep) :
    splitAtChar sep (xs ++ sep :: ys) = (xs, some ys) := by
  induction xs with
  | nil => simp [splitAtChar]
  | cons c cs ih =>
    have hc : c ≠ sep := h c (List.mem_cons_self c cs)
    have hcs : ∀ x ∈ cs, x ≠ sep := fun x hx => h x (List.mem_cons_of_mem c hx)
    simp [splitAtChar, hc, ih hcs]

theorem splitAtChar_no_sep (sep : Char) (xs : List Char)
    (h : ∀ c ∈ xs, c ≠ sep) :
    splitAtChar sep xs = (xs, none) := by
  induction xs with
  | nil => simp [splitAtChar]
  | cons c cs ih =>
    have hc : c ≠ sep := h c (List.mem_cons_self c cs)
    have hcs : ∀ x ∈ cs, x ≠ sep := fun x hx => h x (List.mem_cons_of_mem c hx)
    simp [splitAtChar, hc, ih hcs]

/-- The most-significant-first decimal rendering of an integer, with a
leading minus sign for negative values. -/
def renderIntChars (i : Int) : List Char :=
  if i < 0 then '-' :: renderNatChars i.natAbs else renderNatChars i.natAbs

/-- Parses a whole character list as a (possibly signed) integer. -/
def parseIntFull (cs : List Char) : Option Int :=
  match cs with
  | [] => none
  | c :: rest =>
    if c = '-' then (parseNatFull rest).map (fun n => -(n : Int))
    else (parseNatFull (c :: rest)).map (fun n => (n : Int))

theorem mem_renderIntChars (i : Int) :
    ∀ c ∈ renderIntChars i, c.isDigit = true ∨ c = '-' := by
  unfold renderIntChars
  split
  · intro c hc
    rcases List.mem_cons.mp hc with h | h
    · exact Or.inr h
    · exact Or.inl (mem_renderNatChars_isDigit _ c h)
  · intro c hc
    exact Or.inl (mem_renderNatChars_isDigit _ c hc)

theorem isDigit_ne_minus (c : Char) (h : c.isDigit = true) : c ≠ '-' := by
  intro hcon
  rw [hcon] at h
  exact absurd h (by decide)

theorem isDigit_ne_dot (c : Char) (h : c.isDigit = true) : c ≠ '.' := by
  intro hcon
  rw [hcon] at h
  exact absurd h (by decide)

theorem isDigit_ne_space (c : Char) (h : c.isDigit = true) : c ≠ ' ' := by
  intro hcon
  rw [hcon] at h
  exact absurd h (by decide)

theorem parseIntFull_renderIntChars (i : Int) :
    parseIntFull (renderIntChars i) = some i := by
  unfold renderIntChars
  split
  · rename_i hneg
    have habs : ((i.natAbs : Int)) = -i :=
      Int.ofNat_natAbs_of_nonpos (le_of_lt hneg)
    simp [parseIntFull, parseNatFull_renderNatChars, habs]
  · rename_i hpos
    have habs : ((i.natAbs : Int)) = i :=
      Int.natAbs_of_nonneg (le_of_not_lt hpos)
    rcases hl : renderNatChars i.natAbs with _ | ⟨c, cs⟩
    · exact absurd hl (renderNatChars_ne_nil _)
    · have hcd : c.isDigit = true := by
        have hmem := mem_renderNatChars_isDigit i.natAbs c
        rw [hl] at hmem
        exact hmem (List.mem_cons_self c cs)
      have hc : ¬ (c = '-') := isDigit_ne_minus c hcd
      have hfull : parseNatFull (c :: cs) = some i.natAbs := by
        rw [← hl]
        exact parseNatFull_renderNatChars _
      simp [parseIntFull, hc, hfull, habs]

/-! ## Scaled decimals and timestamps as text -/

/-- The fractional digits of `k`, zero-padded on the left to exactly `e`
digit positions (least significant first before the reverse). -/
def padDigitsRev (e k : Nat) : List Nat :=
  natDigitsRev k ++ List.replicate (e - (natDigitsRev k).length) 0

/-- Renders the fractional part of a scaled decimal with exactly `e`
digits. -/
def renderFracChars (e k : Nat) : List Char :=
  (padDigitsRev e k).reverse.map Nat.digitChar

theorem padDigitsRev_length (e k : Nat) (h : k < 10 ^ e) :
    (padDigitsRev e k).length = e := by
  unfold padDigitsRev
  have := natDigitsRev_length_le e k h
  simp
  omega

theorem valRev_padDigitsRev (e k : Nat) :
    valRev (padDigitsRev e k) = k := by
  unfold padDigitsRev
  rw [valRev_append, valRev_replicate_zero, valRev_natDigitsRev]
  ring

theorem mem_padDigitsRev_lt (e k : Nat) : ∀ d ∈ padDigitsRev e k, d < 10 := by
  intro d hd
  rcases List.mem_append.mp hd with h | h
  · exact mem_natDigitsRev_lt k d h
  · have := List.eq_of_mem_replicate h
    omega

theorem mem_renderFracChars_isDigit (e k : Nat) :
    ∀ c ∈ renderFracChars e k, c.isDigit = true := by
  intro c hc
  unfold renderFracChars at hc
  simp at hc
  obtain ⟨d, hd, hrfl⟩ := hc
  subst hrfl
  exact isDigit_digitChar d (mem_padDigitsRev_lt e k d hd)

theorem parseDigitList_renderFracChars (e k : Nat) :
    parseDigitList (renderFracChars e k) = some (padDigitsRev e k).reverse := by
  unfold renderFracChars
  exact parseDigitList_map_digitChar _
    (fun d hd => mem_padDigitsRev_lt e k d (List.mem_reverse.mp hd))

/-- The unsigned body of a rendered scaled decimal: a plain integer when
`e = 0`, otherwise exactly `e` fractional digits after a dot. -/
def renderDecBody (n e : Nat) : List Char :=
  if e = 0 then renderNatChars n
  else renderNatChars (n / 10 ^ e) ++ '.' :: renderFracChars e (n % 10 ^ e)

/-- Renders the scaled decimal `m * 10^(-e)` in plain decimal notation,
with a leading minus sign for negative mantissas. -/
def renderDecChars (m : Int) (e : Nat) : List Char :=
  (if m < 0 then ['-'] else []) ++ renderDecBody m.natAbs e

/-- Parses an unsigned decimal body, returning the mantissa and the
number of fractional digits. -/
def parseDecBody (cs : List Char) : Option (Nat × Nat) :=
  match splitAtChar '.' cs with
  | (ip, none) => (parseNatFull ip).map (fun a => (a, 0))
  | (ip, some fp) =>
    match parseNatFull ip, parseDigitList fp with
    | some a, some ds =>
      some (a * 10 ^ ds.length + valRev ds.reverse, ds.length)
    | _, _ => none

/-- Parses a whole character list as a scaled decimal, returning the
signed mantissa and the number of fractional digits. -/
def parseDecFull (cs : List Char) : Option (Int × Nat) :=
  match cs with
  | [] => none
  | c :: rest =>
    if c = '-' then (parseDecBody rest).map (fun p => (-(p.1 : Int), p.2))
    else (parseDecBody (c :: rest)).map (fun p => ((p.1 : Int), p.2))

theorem renderDecBody_ne_nil (n e : Nat) : renderDecBody n e ≠ [] := by
  unfold renderDecBody
  split
  · exact renderNatChars_ne_nil n
  · rcases hq : renderNatChars (n / 10 ^ e) with _ | ⟨d, ds⟩
    · exact absurd hq (renderNatChars_ne_nil _)
    · simp [hq]

theorem mem_renderDecBody_not_minus (n e : Nat) :
    ∀ c ∈ renderDecBody n e, ¬ (c = '-') := by
  unfold renderDecBody
  split
  · intro c hc
    exact isDigit_ne_minus c (mem_renderNatChars_isDigit n c hc)
  · intro c hc
    rcases List.mem_append.mp hc with h | h
    · exact isDigit_ne_minus c (mem_renderNatChars_isDigit _ c h)
    · rcases List.mem_cons.mp h with h | h
      · rw [h]; decide
      · exact isDigit_ne_minus c (mem_renderFracChars_isDigit _ _ c h)

theorem parseDecBody_renderDecBody (n e : Nat) :
    parseDecBody (renderDecBody n e) = some (n, e) := by
  unfold renderDecBody
  split
  · rename_i he
    subst he
    have hsplit : splitAtChar '.' (renderNatChars n) = (renderNatChars n, none) :=
      splitAtChar_no_sep _ _
        (fun c hc => isDigit_ne_dot c (mem_renderNatChars_isDigit _ c hc))
    simp [parseDecBody, hsplit, parseNatFull_renderNatChars]
  · have hrlt : n % 10 ^ e < 10 ^ e := Nat.mod_lt _ (pow_pos (by norm_num) e)
    have hsplit : splitAtChar '.'
        (renderNatChars (n / 10 ^ e) ++ '.' :: renderFracChars e (n % 10 ^ e)) =
        (renderNatChars (n / 10 ^ e), some (renderFracChars e (n % 10 ^ e))) :=
      splitAtChar_append _ _ _
        (fun c hc => isDigit_ne_dot c (mem_renderNatChars_isDigit _ c hc))
    have hlen : (padDigitsRev e (n % 10 ^ e)).length = e :=
      padDigitsRev_length _ _ hrlt
    simp [parseDecBody, hsplit, parseNatFull_renderNatChars,
      parseDigitList_renderFracChars, hlen, valRev_padDigitsRev,
      Nat.div_add_mod']

theorem parseDecFull_renderDecChars (m : Int) (e : Nat) :
    parseDecFull (renderDecChars m e) = some (m, e) := by
  unfold renderDecChars
  by_cases hm : m < 0
  · rw [if_pos hm]
    have habs : ((m.natAbs : Int)) = -m :=
      Int.ofNat_natAbs_of_nonpos (le_of_lt hm)
    simp [parseDecFull, parseDecBody_renderDecBody, habs]
  · rw [if_neg hm]
    have habs : ((m.natAbs : Int)) = m :=
      Int.natAbs_of_nonneg (le_of_not_lt hm)
    rcases hl : renderDecBody m.natAbs e with _ | ⟨c, cs⟩
    · exact absurd hl (renderDecBody_ne_nil _ _)
    · have hc : ¬ (c = '-') := by
        have hmem := mem_renderDecBody_not_minus m.natAbs e c
        rw [hl] at hmem
        exact hmem (List.mem_cons_self c cs)
      have hbody : parseDecBody (c :: cs) = some (m.natAbs, e) := by
        rw [← hl]
        exact parseDecBody_renderDecBody _ _
      simp [parseDecFull, hc, hbody, habs]

/-- Renders a timestamp payload as text: epoch seconds, a dot, exactly
nine fractional-second digits, a space, and the stored timezone value. -/
def renderTsChars (secs : Int) (nanos tz : Nat) : List Char :=
  renderIntChars secs ++ '.' :: renderFracChars 9 nanos ++
    ' ' :: renderNatChars tz

/-- Parses a whole character list as a timestamp payload. -/
def parseTsFull (cs : List Char) : Option (Int × Nat × Nat) :=
  match splitAtChar '.' cs with
  | (_, none) => none
  | (sp, some rest) =>
    match splitAtChar ' ' rest with
    | (_, none) => none
    | (np, some tp) =>
      match parseIntFull sp, parseDigitList np, parseNatFull tp with
      | some secs, some ds, some tz => some (secs, valRev ds.reverse, tz)
      | _, _, _ => none

theorem parseTsFull_renderTsChars (secs : Int) (nanos tz : Nat) :
    parseTsFull (renderTsChars secs nanos tz) = some (secs, nanos, tz) := by
  unfold renderTsChars parseTsFull
  have hs1 : splitAtChar '.'
      (renderIntChars secs ++
        '.' :: (renderFracChars 9 nanos ++ ' ' :: renderNatChars tz)) =
      (renderIntChars secs,
        some (renderFracChars 9 nanos ++ ' ' :: renderNatChars tz)) :=
    splitAtChar_append _ _ _ (fun c hc => by
      rcases mem_renderIntChars secs c hc with hd | hm
      · exact isDigit_ne_dot c hd
      · rw [hm]; decide)
  have hs2 : splitAtChar ' '
      (renderFracChars 9 nanos ++ ' ' :: renderNatChars tz) =
      (renderFracChars 9 nanos, some (renderNatChars tz)) :=
    splitAtChar_append _ _ _
      (fun c hc => isDigit_ne_space c (mem_renderFracChars_isDigit 9 nanos c hc))
  simp [hs1, hs2, parseIntFull_renderIntChars, parseDigitList_renderFracChars,
    parseNatFull_renderNatChars, valRev_padDigitsRev]

/-! ## Cell text encoding and the per-column-type decoder -/

/-- The textual rendering of a boolean cell. -/
def renderBoolChars (b : Bool) : List Char := if b then ['1'] else ['0']

/-- Modelled from the spec (§4.4, §6): the textual wire form of one cell
in the row-oriented (JSON) chunk encoding, as produced by the
out-of-scope transport layer; `none` is a NULL cell. -/
def wireText : CellValue → Option String
  | CellValue.nullV => none
  | CellValue.boolV b => some ⟨renderBoolChars b⟩
  | CellValue.intV i => some ⟨renderIntChars i⟩
  | CellValue.decV m e => some ⟨renderDecChars m e⟩
  | CellValue.strV s => some s
  | CellValue.tsV secs nanos tzStored => some ⟨renderTsChars secs nanos tzStored⟩

/-- Parses a whole character list as a boolean cell. -/
def parseBoolFull (cs : List Char) : Option Bool :=
  if cs = ['1'] then some true
  else if cs = ['0'] then some false
  else none

/-- Modelled from the spec (§4.3-4.4): the row-oriented variant re-parses
a cell's text according to the column's declared type on each access. -/
def parseCell (t : SemType) : Option String → Option CellValue
  | none => some CellValue.nullV
  | some s =>
    match t with
    | SemType.TBool => (parseBoolFull s.data).map CellValue.boolV
    | SemType.TFloat64 =>
      (parseDecFull s.data).map (fun p => CellValue.decV p.1 p.2)
    | SemType.TString => some (CellValue.strV s)
    | SemType.TTimestamp =>
      (parseTsFull s.data).map (fun p => CellValue.tsV p.1 p.2.1 p.2.2)
    | _ => (parseIntFull s.data).map CellValue.intV

/-- Modelled from the spec (§3): a cell value matches its column's
declared semantic type (integral widths share one unbounded carrier; the
accessors do the width checks). -/
def wfCell : SemType → CellValue → Bool
  | _, CellValue.nullV => true
  | SemType.TBool, CellValue.boolV _ => true
  | SemType.TInt8, CellValue.intV _ => true
  | SemType.TInt32, CellValue.intV _ => true
  | SemType.TInt64, CellValue.intV _ => true
  | SemType.TUInt8, CellValue.intV _ => true
  | SemType.TUInt32, CellValue.intV _ => true
  | SemType.TUInt64, CellValue.intV _ => true
  | SemType.TFloat64, CellValue.decV _ _ => true
  | SemType.TString, CellValue.strV _ => true
  | SemType.TTimestamp, CellValue.tsV _ _ _ => true
  | _, _ => false

/-- Decoding the rendered text of a well-typed cell by its column's
declared type reproduces the cell exactly. -/
theorem parseCell_wireText (t : SemType) (v : CellValue)
    (h : wfCell t v = true) : parseCell t (wireText v) = some v := by
  cases v <;> cases t <;>
    simp_all [wfCell, wireText, parseCell, parseBoolFull, renderBoolChars,
      parseIntFull_renderIntChars, parseDecFull_renderDecChars,
      parseTsFull_renderTsChars]
  rename_i b
  cases b <;> decide

/-! ## Chunks and the result-set state -/

/-- Modelled from the spec (§2, §4.4): one chunk payload, already parsed
from the wire by the out-of-scope transport layer.  The columnar variant
is a set of parallel typed columns; the row-oriented variant is an
ordered sequence of rows of nullable cell text. -/
inductive ChunkPayload
  | arrowChunk (cols : List (List CellValue))
  | jsonChunk (rows : List (List (Option String)))
deriving DecidableEq, Repr

/-- Modelled from the spec (§4.1): the row count a chunk contributes,
discovered from the payload itself. -/
def chunkRowCount : ChunkPayload → Nat
  | ChunkPayload.arrowChunk cols => (cols.headD []).length
  | ChunkPayload.jsonChunk rows => rows.length

/-- Modelled from the spec (§4.1): whether the chunk's declared column
count agrees with the catalog's column count `n`. -/
def chunkColsOk (n : Nat) : ChunkPayload → Bool
  | ChunkPayload.arrowChunk cols => cols.length = n
  | ChunkPayload.jsonChunk rows => rows.all (fun r => r.length = n)

/-- Modelled from the spec (§4.1): whether the payload parses in the
expected format (for the columnar form, parallel columns of equal
length; the row-oriented form is structurally well-formed once parsed). -/
def chunkWellFormed : ChunkPayload → Bool
  | ChunkPayload.arrowChunk cols =>
    cols.all (fun col => col.length = (cols.headD []).length)
  | ChunkPayload.jsonChunk _ => true

/-- The state of a result set.  Field names follow the protected members
of class `ResultSet` (src/cpp/lib/ResultSet.hpp, lines 289-389) without
the `m_` prefix.  `chunks` is the Chunk Store of spec §2 and `finished`
the two-phase lifecycle flag of spec §4.1, both of which live in the
format-specific subclasses that are outside the provided sources.
`currRowIdx` is an integer so that the pre-first-row state of spec §4.1
("logicalRowIndex = -1 conceptually") is representable. -/
structure ResultSet where
  metadata : List SemType
  binaryOutputFormat : String
  dateOutputFormat : String
  timeOutputFormat : String
  timestampOutputFormat : String
  timestampLtzOutputFormat : String
  timestampNtzOutputFormat : String
  timestampTzOutputFormat : String
  queryResultFormat : QueryResultFormat
  tzString : String
  tzOffset : Int
  currChunkIdx : Nat
  currChunkRowIdx : Nat
  currColumnIdx : Nat
  currRowIdx : Int
  totalChunkCount : Nat
  totalColumnCount : Nat
  totalRowCount : Nat
  chunks : List ChunkPayload
  finished : Bool
deriving DecidableEq, Repr

/-- Two-digit, zero-padded decimal rendering. -/
def pad2Chars (n : Nat) : List Char :=
  if n < 10 then '0' :: renderNatChars n else renderNatChars n

/-- Translated from the documented contract of `ResultSet::initTzString`
(src/cpp/lib/ResultSet.hpp, lines 290-298): converts the stored,
non-negative timezone offset ("UTC+0 is stored as 24*60=1440. Thus,
values lie in [0, 2880]") into a string of the format `±HH:MM` by
re-deriving the true signed offset first. -/
def initTzString (stored : Int) : String :=
  let t : Int := stored - 1440
  let sign := if t < 0 then '-' else '+'
  let a := t.natAbs
  ⟨sign :: (pad2Chars (a / 60) ++ ':' :: pad2Chars (a % 60))⟩

/-- Modelled from the spec (§3): the persisted encoding of a true
timezone offset in minutes is `true_offset + 1440`. -/
def encodeTzOffset (trueOffset : Int) : Int := trueOffset + 1440

/-- Modelled from the spec (§3, §6): decoding a stored timezone offset
subtracts 1440. -/
def decodeTzOffset (stored : Int) : Int := stored - 1440

/-- Modelled from the spec (§6): `getTzOffset` (header lines 261-266)
returns the offset in minutes, already converted from the stored
non-negative encoding. -/
def getTzOffset (s : ResultSet) : Int := decodeTzOffset s.tzOffset

/-- Modelled from the spec (§6): construction binds the column catalog,
the six session format strings, the session timezone (in the stored,
non-negative encoding) and the wire format; the chunk store is empty and
the cursor is in the pre-first-row state. -/
def mkResultSet (metadata : List SemType)
    (binaryFmt dateFmt timeFmt tsFmt tsLtzFmt tsNtzFmt tsTzFmt : String)
    (tzStored : Int) (fmt : QueryResultFormat) : ResultSet :=
  { metadata := metadata
    binaryOutputFormat := binaryFmt
    dateOutputFormat := dateFmt
    timeOutputFormat := timeFmt
    timestampOutputFormat := tsFmt
    timestampLtzOutputFormat := tsLtzFmt
    timestampNtzOutputFormat := tsNtzFmt
    timestampTzOutputFormat := tsTzFmt
    queryResultFormat := fmt
    tzString := initTzString tzStored
    tzOffset := tzStored
    currChunkIdx := 0
    currChunkRowIdx := 0
    currColumnIdx := 0
    currRowIdx := -1
    totalChunkCount := 0
    totalColumnCount := metadata.length
    totalRowCount := 0
    chunks := []
    finished := false }

/-! ## Lifecycle operations (ingest phase) -/

/-- Modelled from the spec (§4.1): `appendChunk` (header lines 59-66) is
valid only before finalization; it validates the declared column count
against the catalog and the payload's format, appends the chunk to the
chunk store and increments the running totals; it never touches the
cursor. -/
def appendChunk (s : ResultSet) (chunk : ChunkPayload) :
    SFStatus × ResultSet :=
  if s.finished then (SFStatus.InvalidState, s)
  else if ¬ chunkColsOk s.totalColumnCount chunk then
    (SFStatus.ColumnCountMismatch, s)
  else if ¬ chunkWellFormed chunk then (SFStatus.MalformedChunk, s)
  else
    (SFStatus.Success,
      { s with
        chunks := s.chunks ++ [chunk]
        totalChunkCount := s.totalChunkCount + 1
        totalRowCount := s.totalRowCount + chunkRowCount chunk })

/-- Modelled from the spec (§4.1): `finishResultSet` (header lines 68-74)
is valid only once; it freezes the totals and resets the cursor to the
pre-first-row state so the next `nextRow` lands on row 0.  Re-finalizing
fails with `InvalidState` and changes nothing. -/
def finishResultSet (s : ResultSet) : SFStatus × ResultSet :=
  if s.finished then (SFStatus.InvalidState, s)
  else
    (SFStatus.Success,
      { s with
        finished := true
        currChunkIdx := 0
        currChunkRowIdx := 0
        currColumnIdx := 0
        currRowIdx := -1 })

/-! ## Cursor traversal (consumption phase) -/

/-- Finds the absolute index of the first chunk with at least one row in
the given list, whose first element has absolute index `base`. -/
def findNonempty : List ChunkPayload → Nat → Option Nat
  | [], _ => none
  | c :: cs, base =>
    if 0 < chunkRowCount c then some base else findNonempty cs (base + 1)

/-- The row count of the chunk at absolute index `i`. -/
def chunkRowCountAt (chunks : List ChunkPayload) (i : Nat) : Nat :=
  ((chunks.get? i).map chunkRowCount).getD 0

/-- Modelled from the spec (§4.2): `nextRow` (header lines 85-90)
advances to the first column of the next logical row, crossing into the
next chunk when the current chunk's rows are exhausted and transparently
skipping zero-row chunks.  At the last row it returns `EndOfResult` and
leaves the cursor unchanged (exhausted, never wrapping). -/
def nextRow (s : ResultSet) : SFStatus × ResultSet :=
  if ¬ s.finished then (SFStatus.InvalidState, s)
  else
    let target : Option (Nat × Nat) :=
      if s.currRowIdx < 0 then
        (findNonempty s.chunks 0).map (fun ci => (ci, 0))
      else if s.currChunkRowIdx + 1 < chunkRowCountAt s.chunks s.currChunkIdx then
        some (s.currChunkIdx, s.currChunkRowIdx + 1)
      else
        (findNonempty (s.chunks.drop (s.currChunkIdx + 1)) (s.currChunkIdx + 1)).map
          (fun ci => (ci, 0))
    match target with
    | none => (SFStatus.EndOfResult, s)
    | some (ci, ri) =>
      (SFStatus.Success,
        { s with
          currChunkIdx := ci
          currChunkRowIdx := ri
          currRowIdx := s.currRowIdx + 1
          currColumnIdx := 0 })

/-- Modelled from the spec (§4.2): `nextColumn` (header lines 78-83)
advances to the next column within the current row, returning
`NoMoreColumns` past the last column. -/
def nextColumn (s : ResultSet) : SFStatus × ResultSet :=
  if ¬ s.finished then (SFStatus.InvalidState, s)
  else if s.currColumnIdx + 1 ≥ s.totalColumnCount then
    (SFStatus.NoMoreColumns, s)
  else (SFStatus.Success, { s with currColumnIdx := s.currColumnIdx + 1 })

/-! ## Typed cell accessors

Each accessor mirrors a `getCurrCellAs*` method of the header (lines
92-194): it consumes the state and yields a `(status, value)` result
together with the (unchanged) state, since a C++ method receives `this`.
The bodies are modelled from the spec (§4.3-4.4): the columnar variant
reads the typed column buffer directly, the row-oriented variant
re-parses the cell's text by the column's declared type on each access,
and both then convert to the requested primitive identically. -/

/-- The decoded content of the cell under the cursor: `none` when the
cursor or column index is not on a cell (or decoding fails). -/
def currCell (s : ResultSet) : Option CellValue :=
  if s.finished = true ∧ 0 ≤ s.currRowIdx then
    match s.chunks.get? s.currChunkIdx with
    | none => none
    | some (ChunkPayload.arrowChunk cols) =>
      (cols.get? s.currColumnIdx).bind (fun col => col.get? s.currChunkRowIdx)
    | some (ChunkPayload.jsonChunk rows) =>
      match (rows.get? s.currChunkRowIdx).bind (fun row => row.get? s.currColumnIdx),
            s.metadata.get? s.currColumnIdx with
      | some txt, some t => parseCell t txt
      | _, _ => none
  else none

/-- Modelled from the spec (§4.3): boolean conversion; NULL yields the
sentinel `false`, a missing cell `OutOfRange`, other content
`TypeMismatch`. -/
def cellAsBool : Option CellValue → SFStatus × Bool
  | none => (SFStatus.OutOfRange, false)
  | some CellValue.nullV => (SFStatus.Success, false)
  | some (CellValue.boolV b) => (SFStatus.Success, b)
  | some _ => (SFStatus.TypeMismatch, false)

/-- Modelled from the spec (§4.3): integral conversion before any width
check; NULL yields the sentinel `0`. -/
def cellAsIntCore : Option CellValue → SFStatus × Int
  | none => (SFStatus.OutOfRange, 0)
  | some CellValue.nullV => (SFStatus.Success, 0)
  | some (CellValue.intV i) => (SFStatus.Success, i)
  | some _ => (SFStatus.TypeMismatch, 0)

/-- Modelled from the spec (§4.3): a successful integral conversion whose
value cannot be produced losslessly in the requested width fails with
`TypeMismatch`. -/
def rangeCheck (lo hi : Int) : SFStatus × Int → SFStatus × Int
  | (SFStatus.Success, i) =>
    if lo ≤ i ∧ i ≤ hi then (SFStatus.Success, i)
    else (SFStatus.TypeMismatch, 0)
  | p => p

/-- Modelled from the spec (§4.3): `float64` conversion; the value is the
exact scaled decimal `(mantissa, fractional digits)`. -/
def cellAsFloat64 : Option CellValue → SFStatus × Int × Nat
  | none => (SFStatus.OutOfRange, 0, 0)
  | some CellValue.nullV => (SFStatus.Success, 0, 0)
  | some (CellValue.decV m e) => (SFStatus.Success, m, e)
  | some (CellValue.intV i) => (SFStatus.Success, i, 0)
  | some _ => (SFStatus.TypeMismatch, 0, 0)

/-- Modelled from the spec (§4.3): string-valued rendering of a cell;
timestamps decode the stored timezone offset first and carry the
`±HH:MM` suffix produced by `initTzString`. -/
def displayText : CellValue → Option String
  | CellValue.nullV => none
  | CellValue.boolV b => some ⟨renderBoolChars b⟩
  | CellValue.intV i => some ⟨renderIntChars i⟩
  | CellValue.decV m e => some ⟨renderDecChars m e⟩
  | CellValue.strV str => some str
  | CellValue.tsV secs nanos tzStored =>
    some ((⟨renderIntChars secs ++ '.' :: renderFracChars 9 nanos ++ [' ']⟩ : String) ++
      initTzString tzStored)

/-- Modelled from the spec (§4.3): the borrowed-string accessor returns
the rendered text, `none` standing for the NULL sentinel (a NULL
pointer). -/
def cellAsConstString : Option CellValue → SFStatus × Option String
  | none => (SFStatus.OutOfRange, none)
  | some v => (SFStatus.Success, displayText v)

/-- Modelled from the spec (§4.3): timestamp conversion; the value is
(epoch seconds, nanoseconds, stored timezone offset); NULL yields the
sentinel epoch value at UTC (stored offset 1440). -/
def cellAsTimestamp : Option CellValue → SFStatus × (Int × Nat × Nat)
  | none => (SFStatus.OutOfRange, (0, 0, 1440))
  | some CellValue.nullV => (SFStatus.Success, (0, 0, 1440))
  | some (CellValue.tsV secs nanos tzStored) =>
    (SFStatus.Success, (secs, nanos, tzStored))
  | some _ => (SFStatus.TypeMismatch, (0, 0, 1440))

/-- `getCurrCellAsBool` (header lines 92-99). -/
def getCurrCellAsBool (s : ResultSet) : (SFStatus × Bool) × ResultSet :=
  (cellAsBool (currCell s), s)

/-- `getCurrCellAsInt8` (header lines 101-108). -/
def getCurrCellAsInt8 (s : ResultSet) : (SFStatus × Int) × ResultSet :=
  (rangeCheck (-128) 127 (cellAsIntCore (currCell s)), s)

/-- `getCurrCellAsInt32` (header lines 110-117). -/
def getCurrCellAsInt32 (s : ResultSet) : (SFStatus × Int) × ResultSet :=
  (rangeCheck (-(2 ^ 31)) (2 ^ 31 - 1) (cellAsIntCore (currCell s)), s)

/-- `getCurrCellAsInt64` (header lines 119-126). -/
def getCurrCellAsInt64 (s : ResultSet) : (SFStatus × Int) × ResultSet :=
  (rangeCheck (-(2 ^ 63)) (2 ^ 63 - 1) (cellAsIntCore (currCell s)), s)

/-- `getCurrCellAsUint8` (header lines 128-135). -/
def getCurrCellAsUint8 (s : ResultSet) : (SFStatus × Int) × ResultSet :=
  (rangeCheck 0 255 (cellAsIntCore (currCell s)), s)

/-- `getCurrCellAsUint32` (header lines 137-144). -/
def getCurrCellAsUint32 (s : ResultSet) : (SFStatus × Int) × ResultSet :=
  (rangeCheck 0 (2 ^ 32 - 1) (cellAsIntCore (currCell s)), s)

/-- `getCurrCellAsUint64` (header lines 146-153). -/
def getCurrCellAsUint64 (s : ResultSet) : (SFStatus × Int) × ResultSet :=
  (rangeCheck 0 (2 ^ 64 - 1) (cellAsIntCore (currCell s)), s)

/-- `getCurrCellAsFloat64` (header lines 155-162). -/
def getCurrCellAsFloat64 (s : ResultSet) :
    (SFStatus × Int × Nat) × ResultSet :=
  (cellAsFloat64 (currCell s), s)

/-- `getCurrCellAsConstString` (header lines 164-171). -/
def getCurrCellAsConstString (s : ResultSet) :
    (SFStatus × Option String) × ResultSet :=
  (cellAsConstString (currCell s), s)

/-- `getCurrCellAsTimestamp` (header lines 187-194). -/
def getCurrCellAsTimestamp (s : ResultSet) :
    (SFStatus × (Int × Nat × Nat)) × ResultSet :=
  (cellAsTimestamp (currCell s), s)

/-- Translated from the documented contract of
`ResultSet::getCurrCellAsString` (src/cpp/lib/ResultSet.hpp, lines
173-185): "In the event that the provided buffer is not large enough to
contain the requested string, the buffer will be re-allocated and
io_capacity will be updated accordingly."  The result carries the
status, the buffer contents, the written length (`io_len`) and the
possibly-grown capacity (`io_capacity`, counting the terminating NUL);
a NULL cell writes the empty string. -/
def getCurrCellAsString (s : ResultSet) (io_capacity : Nat) :
    (SFStatus × String × Nat × Nat) × ResultSet :=
  (match currCell s with
   | none => (SFStatus.OutOfRange, "", 0, io_capacity)
   | some v =>
     let str := (displayText v).getD ""
     let needed := str.length + 1
     if io_capacity < needed then (SFStatus.Success, str, str.length, needed)
     else (SFStatus.Success, str, str.length, io_capacity), s)

/-! ## Read-only member getters (header lines 196-287) -/

/-- `getBinaryOutputFormat` (header line 203). -/
def getBinaryOutputFormat (s : ResultSet) : String := s.binaryOutputFormat

/-- `getDateOutputFormat` (header line 210). -/
def getDateOutputFormat (s : ResultSet) : String := s.dateOutputFormat

/-- `getTimeOutputFormat` (header line 217). -/
def getTimeOutputFormat (s : ResultSet) : String := s.timeOutputFormat

/-- `getTimestampOutputFormat` (header line 224). -/
def getTimestampOutputFormat (s : ResultSet) : String :=
  s.timestampOutputFormat

/-- `getTimestampLtzOutputFormat` (header line 231). -/
def getTimestampLtzOutputFormat (s : ResultSet) : String :=
  s.timestampLtzOutputFormat

/-- `getTimestampNtzOutputFormat` (header line 238). -/
def getTimestampNtzOutputFormat (s : ResultSet) : String :=
  s.timestampNtzOutputFormat

/-- `getTimestampTzOutputFormat` (header line 245). -/
def getTimestampTzOutputFormat (s : ResultSet) : String :=
  s.timestampTzOutputFormat

/-- `getQueryResultFormat` (header lines 247-252). -/
def getQueryResultFormat (s : ResultSet) : QueryResultFormat :=
  s.queryResultFormat

/-- `getTzString` (header lines 254-259). -/
def getTzString (s : ResultSet) : String := s.tzString

/-- `getTotalChunkCount` (header lines 268-273). -/
def getTotalChunkCount (s : ResultSet) : Nat := s.totalChunkCount

/-- `getTotalColumnCount` (header lines 275-280). -/
def getTotalColumnCount (s : ResultSet) : Nat := s.totalColumnCount

/-- `getTotalRowCount` (header lines 282-287). -/
def getTotalRowCount (s : ResultSet) : Nat := s.totalRowCount

/-! ## Cursor arithmetic: row counting across chunk boundaries -/

/-- The total number of rows held by a list of chunks. -/
def sumRows (l : List ChunkPayload) : Nat := (l.map chunkRowCount).sum

theorem sumRows_nil : sumRows [] = 0 := rfl

theorem sumRows_cons (c : ChunkPayload) (cs : List ChunkPayload) :
    sumRows (c :: cs) = chunkRowCount c + sumRows cs := by
  simp [sumRows]

theorem sumRows_append (a b : List ChunkPayload) :
    sumRows (a ++ b) = sumRows a + sumRows b := by
  simp [sumRows]

theorem chunkRowCountAt_cons_zero (c : ChunkPayload) (cs : List ChunkPayload) :
    chunkRowCountAt (c :: cs) 0 = chunkRowCount c := rfl

theorem chunkRowCountAt_cons_succ (c : ChunkPayload) (cs : List ChunkPayload)
    (j : Nat) : chunkRowCountAt (c :: cs) (j + 1) = chunkRowCountAt cs j := rfl

theorem chunkRowCountAt_drop (l : List ChunkPayload) (n j : Nat) :
    chunkRowCountAt (l.drop n) j = chunkRowCountAt l (n + j) := by
  simp [chunkRowCountAt, List.get?_eq_getElem?, List.getElem?_drop]

theorem sumRows_take_succ (l : List ChunkPayload) (i : Nat)
    (h : i < l.length) :
    sumRows (l.take (i + 1)) = sumRows (l.take i) + chunkRowCountAt l i := by
  rw [List.take_succ, sumRows_append]
  rcases hg : l.get? i with _ | c
  · rw [List.get?_eq_none] at hg
    omega
  · have hg2 : l[i]? = some c := by
      rw [← List.get?_eq_getElem?]
      exact hg
    simp [chunkRowCountAt, hg, hg2, sumRows]

theorem sumRows_take_drop (l : List ChunkPayload) (i : Nat) :
    sumRows (l.take i) + sumRows (l.drop i) = sumRows l := by
  rw [← sumRows_append, List.take_append_drop]

theorem sumRows_take_le (l : List ChunkPayload) (i : Nat) :
    sumRows (l.take i) ≤ sumRows l := by
  have := sumRows_take_drop l i
  omega

theorem sumRows_take_add (l : List ChunkPayload) (m n : Nat) :
    sumRows (l.take (m + n)) =
      sumRows (l.take m) + sumRows ((l.drop m).take n) := by
  rw [List.take_add, sumRows_append]

/-- Characterizes `findNonempty`: either every chunk in the list is empty
of rows, or it returns the absolute index of the first chunk with rows,
and all chunks before it hold zero rows. -/
theorem findNonempty_spec (l : List ChunkPayload) (base : Nat) :
    (findNonempty l base = none ∧ sumRows l = 0) ∨
    (∃ j, findNonempty l base = some (base + j) ∧ j < l.length ∧
      0 < chunkRowCountAt l j ∧ sumRows (l.take j) = 0) := by
  induction l generalizing base with
  | nil => left; exact ⟨rfl, rfl⟩
  | cons c cs ih =>
    by_cases hc : 0 < chunkRowCount c
    · right
      refine ⟨0, ?_, ?_, ?_, ?_⟩
      · simp [findNonempty, hc]
      · simp
      · simpa [chunkRowCountAt_cons_zero] using hc
      · simp [sumRows]
    · rcases ih (base + 1) with ⟨h1, h2⟩ | ⟨j, h1, h2, h3, h4⟩
      · left
        constructor
        · simp [findNonempty, hc, h1]
        · rw [sumRows_cons]
          omega
      · right
        refine ⟨j + 1, ?_, ?_, ?_, ?_⟩
        · have harith : base + 1 + j = base + (j + 1) := by omega
          simp only [findNonempty, if_neg hc]
          rw [h1, harith]
        · simpa using Nat.succ_lt_succ h2
        · simpa [chunkRowCountAt_cons_succ] using h3
        · rw [List.take_succ_cons, sumRows_cons]
          omega

/-- A chunk's own row count never exceeds the total. -/
theorem chunkRowCountAt_le_sumRows (l : List ChunkPayload) (i : Nat)
    (h : i < l.length) : chunkRowCountAt l i ≤ sumRows l := by
  have h1 := sumRows_take_succ l i h
  have h2 := sumRows_take_le l (i + 1)
  omega

/-- The cursor sits on the cell at chunk `ci`, in-chunk row `ri`, and
exactly `k` logical rows precede that cell (spec §3: `logicalRowIndex`
is a running total across chunk boundaries). -/
def PosValid (l : List ChunkPayload) (ci ri k : Nat) : Prop :=
  ci < l.length ∧ ri < chunkRowCountAt l ci ∧ sumRows (l.take ci) + ri = k

/-- The observable cursor state after `k` successful `nextRow` calls on a
finalized result set whose chunk store is `l`. -/
def Reached (l : List ChunkPayload) (k : Nat) (s : ResultSet) : Prop :=
  s.chunks = l ∧ s.finished = true ∧ s.currRowIdx = (k : Int) - 1 ∧
    (k = 0 ∨ (PosValid l s.currChunkIdx s.currChunkRowIdx (k - 1) ∧
      s.currColumnIdx = 0))

/-- One `nextRow` call from a reachable cursor state: it succeeds and
reaches the next state exactly when rows remain, and is the identity
returning `EndOfResult` once all rows are consumed. -/
theorem nextRow_step (l : List ChunkPayload) (k : Nat) (s : ResultSet)
    (h : Reached l k s) :
    (k < sumRows l →
      (nextRow s).1 = SFStatus.Success ∧ Reached l (k + 1) (nextRow s).2) ∧
    (sumRows l ≤ k → nextRow s = (SFStatus.EndOfResult, s)) := by
  obtain ⟨hchunks, hfin, hrow, hpos⟩ := h
  match k with
  | 0 =>
    have hneg : s.currRowIdx < 0 := by rw [hrow]; decide
    rcases findNonempty_spec l 0 with ⟨h1, h2⟩ | ⟨j, h1, h2, h3, h4⟩
    · have heq : nextRow s = (SFStatus.EndOfResult, s) := by
        simp [nextRow, hfin, hneg, hchunks, h1]
      exact ⟨fun hk => absurd hk (by omega), fun _ => heq⟩
    · have h1z : findNonempty l 0 = some j := by simpa using h1
      have heq : nextRow s = (SFStatus.Success,
          { s with currChunkIdx := j, currChunkRowIdx := 0,
                   currRowIdx := s.currRowIdx + 1, currColumnIdx := 0 }) := by
        simp [nextRow, hfin, hneg, hchunks, h1z]
      have hsumpos : 0 < sumRows l :=
        lt_of_lt_of_le h3 (chunkRowCountAt_le_sumRows l j h2)
      refine ⟨fun _ => ?_, fun hk => absurd hsumpos (by omega)⟩
      constructor
      · rw [heq]
      · rw [heq]
        refine ⟨hchunks, hfin, ?_, Or.inr ⟨⟨h2, h3, by simpa using h4⟩, rfl⟩⟩
        simp [hrow]
  | m + 1 =>
    rcases hpos with hz | ⟨⟨hci, hri, hsum⟩, hcol0⟩
    · omega
    · have hnneg : ¬ (s.currRowIdx < 0) := by
        rw [hrow]
        push_cast
        omega
      by_cases hlt : s.currChunkRowIdx + 1 < chunkRowCountAt l s.currChunkIdx
      · have hlt2 : s.currChunkRowIdx + 1 < chunkRowCountAt s.chunks s.currChunkIdx := by
          rw [hchunks]; exact hlt
        have heq : nextRow s = (SFStatus.Success,
            { s with currChunkIdx := s.currChunkIdx,
                     currChunkRowIdx := s.currChunkRowIdx + 1,
                     currRowIdx := s.currRowIdx + 1, currColumnIdx := 0 }) := by
          simp [nextRow, hfin, hnneg, hlt2]
        have hklt : m + 1 < sumRows l := by
          have hstep := sumRows_take_succ l s.currChunkIdx hci
          have hle := sumRows_take_le l (s.currChunkIdx + 1)
          omega
        refine ⟨fun _ => ?_, fun hk => absurd hklt (by omega)⟩
        constructor
        · rw [heq]
        · rw [heq]
          refine ⟨hchunks, hfin, ?_, Or.inr ⟨⟨hci, hlt, by simp; omega⟩, rfl⟩⟩
          rw [hrow]
          push_cast
          ring
      · have hlt2 : ¬ (s.currChunkRowIdx + 1 < chunkRowCountAt s.chunks s.currChunkIdx) := by
          rw [hchunks]; exact hlt
        have hrc : s.currChunkRowIdx + 1 = chunkRowCountAt l s.currChunkIdx := by
          omega
        rcases findNonempty_spec (l.drop (s.currChunkIdx + 1)) (s.currChunkIdx + 1)
          with ⟨h1, h2⟩ | ⟨j, h1, h2, h3, h4⟩
        · have heq : nextRow s = (SFStatus.EndOfResult, s) := by
            simp [nextRow, hfin, hnneg, hlt, hlt2, hchunks, h1]
          have hsumeq : sumRows l = m + 1 := by
            have hsplit := sumRows_take_drop l (s.currChunkIdx + 1)
            have hstep := sumRows_take_succ l s.currChunkIdx hci
            omega
          exact ⟨fun hk => absurd hk (by omega), fun _ => heq⟩
        · have heq : nextRow s = (SFStatus.Success,
              { s with currChunkIdx := s.currChunkIdx + 1 + j,
                       currChunkRowIdx := 0,
                       currRowIdx := s.currRowIdx + 1, currColumnIdx := 0 }) := by
            simp [nextRow, hfin, hnneg, hlt, hlt2, hchunks, h1]
          have hlen : (l.drop (s.currChunkIdx + 1)).length =
              l.length - (s.currChunkIdx + 1) := List.length_drop _ _
          have hidx : s.currChunkIdx + 1 + j < l.length := by omega
          have hrcat : chunkRowCountAt l (s.currChunkIdx + 1 + j) =
              chunkRowCountAt (l.drop (s.currChunkIdx + 1)) j :=
            (chunkRowCountAt_drop l (s.currChunkIdx + 1) j).symm
          have htake : sumRows (l.take (s.currChunkIdx + 1 + j)) = m + 1 := by
            have hadd := sumRows_take_add l (s.currChunkIdx + 1) j
            have hstep := sumRows_take_succ l s.currChunkIdx hci
            omega
          have hklt : m + 1 < sumRows l := by
            have hstep2 := sumRows_take_succ l (s.currChunkIdx + 1 + j) hidx
            have hle2 := sumRows_take_le l (s.currChunkIdx + 1 + j + 1)
            rw [hrcat] at hstep2
            omega
          refine ⟨fun _ => ?_, fun hk => absurd hklt (by omega)⟩
          constructor
          · rw [heq]
          · rw [heq]
            refine ⟨hchunks, hfin, ?_, Or.inr ⟨⟨hidx, ?_, ?_⟩, rfl⟩⟩
            · rw [hrow]
              push_cast
              ring
            · rw [hrcat]
              exact h3
            · simpa using htake

/-- The state after `n` consecutive `nextRow` calls. -/
def advanceN (s : ResultSet) : Nat → ResultSet
  | 0 => s
  | n + 1 => (nextRow (advanceN s n)).2

/-- The status returned by the `(n+1)`-th `nextRow` call, after `n`
earlier calls. -/
def nextRowStatusAfter (s : ResultSet) (n : Nat) : SFStatus :=
  (nextRow (advanceN s n)).1

theorem reached_advanceN (l : List ChunkPayload) (s : ResultSet)
    (h0 : Reached l 0 s) (k : Nat) (hk : k ≤ sumRows l) :
    Reached l k (advanceN s k) := by
  induction k with
  | zero => exact h0
  | succ k ih =>
    have hr := ih (by omega)
    exact ((nextRow_step l k (advanceN s k) hr).1 (by omega)).2

theorem advanceN_exhausted (l : List ChunkPayload) (s : ResultSet)
    (h0 : Reached l 0 s) (n : Nat) :
    advanceN s (sumRows l + n) = advanceN s (sumRows l) := by
  induction n with
  | zero => rfl
  | succ n ih =>
    have hr := reached_advanceN l s h0 (sumRows l) le_rfl
    have hstep := (nextRow_step l (sumRows l) (advanceN s (sumRows l)) hr).2 le_rfl
    calc advanceN s (sumRows l + (n + 1))
        = (nextRow (advanceN s (sumRows l + n))).2 := rfl
      _ = (nextRow (advanceN s (sumRows l))).2 := by rw [ih]
      _ = advanceN s (sumRows l) := by rw [hstep]

/-- The status of every `nextRow` call over a finalized result set:
success for the first `sumRows l` calls, `EndOfResult` forever after. -/
theorem nextRowStatusAfter_spec (l : List ChunkPayload) (s : ResultSet)
    (h0 : Reached l 0 s) (n : Nat) :
    nextRowStatusAfter s n =
      if n < sumRows l then SFStatus.Success else SFStatus.EndOfResult := by
  by_cases hn : n < sumRows l
  · rw [if_pos hn]
    exact ((nextRow_step l n (advanceN s n)
      (reached_advanceN l s h0 n (by omega))).1 hn).1
  · rw [if_neg hn]
    have hsplit : n = sumRows l + (n - sumRows l) := by omega
    unfold nextRowStatusAfter
    rw [hsplit, advanceN_exhausted l s h0]
    have hr := reached_advanceN l s h0 (sumRows l) le_rfl
    rw [(nextRow_step l (sumRows l) _ hr).2 le_rfl]

/-- The logical row index after `n` `nextRow` calls: `n - 1` while rows
remain, then frozen at `sumRows l - 1`. -/
theorem currRowIdx_advanceN (l : List ChunkPayload) (s : ResultSet)
    (h0 : Reached l 0 s) (n : Nat) :
    (advanceN s n).currRowIdx = ((min n (sumRows l) : Nat) : Int) - 1 := by
  by_cases hn : n ≤ sumRows l
  · have hr := reached_advanceN l s h0 n hn
    rw [hr.2.2.1, Nat.min_eq_left hn]
  · have hsplit : n = sumRows l + (n - sumRows l) := by omega
    rw [hsplit, advanceN_exhausted l s h0,
      (reached_advanceN l s h0 (sumRows l) le_rfl).2.2.1,
      Nat.min_eq_right (by omega)]

/-! ## Building a result set (ingest loop then finalize) -/

/-- The ingest loop: appends each chunk of `l` in order. -/
def appendAll (s : ResultSet) : List ChunkPayload → ResultSet
  | [] => s
  | c :: cs => appendAll (appendChunk s c).2 cs

theorem appendAll_ok (l : List ChunkPayload) (s : ResultSet)
    (hfin : s.finished = false)
    (hok : ∀ c ∈ l, chunkColsOk s.totalColumnCount c = true ∧
      chunkWellFormed c = true) :
    (appendAll s l).chunks = s.chunks ++ l ∧
      (appendAll s l).finished = false ∧
      (appendAll s l).totalColumnCount = s.totalColumnCount ∧
      (appendAll s l).totalRowCount = s.totalRowCount + sumRows l ∧
      (appendAll s l).metadata = s.metadata := by
  induction l generalizing s with
  | nil => simp [appendAll, hfin, sumRows_nil]
  | cons c cs ih =>
    have hc := hok c (List.mem_cons_self c cs)
    set s2 : ResultSet :=
      { s with
        chunks := s.chunks ++ [c]
        totalChunkCount := s.totalChunkCount + 1
        totalRowCount := s.totalRowCount + chunkRowCount c } with hs2
    have happ : appendChunk s c = (SFStatus.Success, s2) := by
      simp [appendChunk, hfin, hc.1, hc.2, hs2]
    have hfin2 : s2.finished = false := hfin
    have hok2 : ∀ x ∈ cs, chunkColsOk s2.totalColumnCount x = true ∧
        chunkWellFormed x = true := by
      intro x hx
      exact hok x (List.mem_cons_of_mem c hx)
    have hrest := ih s2 hfin2 hok2
    have hall : appendAll s (c :: cs) = appendAll s2 cs := by
      rw [appendAll, happ]
    rw [hall]
    refine ⟨?_, hrest.2.1, ?_, ?_, ?_⟩
    · rw [hrest.1]
      show (s.chunks ++ [c]) ++ cs = s.chunks ++ c :: cs
      simp
    · rw [hrest.2.2.1]
    · rw [hrest.2.2.2.1]
      show s.totalRowCount + chunkRowCount c + sumRows cs =
        s.totalRowCount + sumRows (c :: cs)
      rw [sumRows_cons]
      ring
    · exact hrest.2.2.2.2

/-- Builds a result set end to end: construct with the given session
configuration, ingest every chunk of `L` in order, finalize. -/
def buildResultSet (meta : List SemType)
    (f1 f2 f3 f4 f5 f6 f7 : String) (tz : Int) (fmt : QueryResultFormat)
    (L : List ChunkPayload) : ResultSet :=
  (finishResultSet (appendAll
    (mkResultSet meta f1 f2 f3 f4 f5 f6 f7 tz fmt) L)).2

theorem finishResultSet_of_unfinished (s : ResultSet)
    (h : s.finished = false) :
    finishResultSet s = (SFStatus.Success,
      { s with finished := true, currChunkIdx := 0, currChunkRowIdx := 0,
               currColumnIdx := 0, currRowIdx := -1 }) := by
  simp [finishResultSet, h]

/-- A freshly built result set is at cursor reset over exactly the
ingested chunks, with the catalog's column count and the row total
frozen to the chunks' sum. -/
theorem reached_build (meta : List SemType)
    (f1 f2 f3 f4 f5 f6 f7 : String) (tz : Int) (fmt : QueryResultFormat)
    (L : List ChunkPayload)
    (hok : ∀ c ∈ L, chunkColsOk meta.length c = true ∧
      chunkWellFormed c = true) :
    Reached L 0 (buildResultSet meta f1 f2 f3 f4 f5 f6 f7 tz fmt L) ∧
      (buildResultSet meta f1 f2 f3 f4 f5 f6 f7 tz fmt L).totalColumnCount =
        meta.length ∧
      (buildResultSet meta f1 f2 f3 f4 f5 f6 f7 tz fmt L).metadata = meta ∧
      (buildResultSet meta f1 f2 f3 f4 f5 f6 f7 tz fmt L).totalRowCount =
        sumRows L ∧
      (buildResultSet meta f1 f2 f3 f4 f5 f6 f7 tz fmt L).currColumnIdx = 0 := by
  have hmkfin : (mkResultSet meta f1 f2 f3 f4 f5 f6 f7 tz fmt).finished =
      false := rfl
  have hall := appendAll_ok L (mkResultSet meta f1 f2 f3 f4 f5 f6 f7 tz fmt)
    hmkfin hok
  have hfin1 := finishResultSet_of_unfinished _ hall.2.1
  unfold buildResultSet
  rw [hfin1]
  refine ⟨⟨by simpa using hall.1, rfl, by simp, Or.inl rfl⟩, ?_, ?_, ?_, rfl⟩
  · simpa using hall.2.2.1
  · simpa using hall.2.2.2.2
  · have h4 := hall.2.2.2.1
    have hz : (mkResultSet meta f1 f2 f3 f4 f5 f6 f7 tz fmt).totalRowCount = 0 :=
      rfl
    rw [hz] at h4
    simpa using h4

/-- The state after `n` consecutive `nextColumn` calls. -/
def advanceColN (s : ResultSet) : Nat → ResultSet
  | 0 => s
  | n + 1 => (nextColumn (advanceColN s n)).2

/-- Advancing `n` columns from a finalized state moves only the column
index, as long as the walk stays inside the row. -/
theorem advanceColN_fields (s : ResultSet) (n : Nat)
    (hfin : s.finished = true)
    (hn : s.currColumnIdx + n < s.totalColumnCount) :
    advanceColN s n = { s with currColumnIdx := s.currColumnIdx + n } := by
  induction n with
  | zero =>
    show s = { s with currColumnIdx := s.currColumnIdx + 0 }
    simp
  | succ n ih =>
    have hn1 : s.currColumnIdx + n < s.totalColumnCount := by omega
    have hprev := ih hn1
    show (nextColumn (advanceColN s n)).2 = _
    rw [hprev]
    have hcond : ¬ (s.currColumnIdx + n + 1 ≥ s.totalColumnCount) := by omega
    simp [nextColumn, hfin, hcond]
    omega

/-! ## The claims -/

/-- **C1**: for every sequence of chunks accepted before finalization
whose row counts sum to `R = sumRows L`, after `finishResultSet` the
`(k+1)`-th call to `nextRow` succeeds exactly when `k < R`: exactly `R`
calls succeed, the `(R+1)`-th returns `EndOfResult`, and every subsequent
call keeps returning `EndOfResult` (the cursor is exhausted and never
wraps).  The statement quantifies over arbitrary chunk lists of either
wire format — columnar (`arrowChunk`) and row-oriented (`jsonChunk`)
payloads run through the same cursor machinery — so result sets of the
two variants holding equivalent content (equal row-count sums) produce
identical status sequences. -/
theorem C1_row_consumption (meta : List SemType)
    (f1 f2 f3 f4 f5 f6 f7 : String) (tz : Int) (fmt : QueryResultFormat)
    (L : List ChunkPayload)
    (hok : ∀ c ∈ L, chunkColsOk meta.length c = true ∧
      chunkWellFormed c = true) (k : Nat) :
    nextRowStatusAfter (buildResultSet meta f1 f2 f3 f4 f5 f6 f7 tz fmt L) k =
      if k < sumRows L then SFStatus.Success else SFStatus.EndOfResult :=
  nextRowStatusAfter_spec L _
    (reached_build meta f1 f2 f3 f4 f5 f6 f7 tz fmt L hok).1 k

/-- Witness for C1: a concrete two-row JSON-variant result set yields
`Success` on the first two `nextRow` calls and `EndOfResult` on the
third and fourth. -/
theorem C1_row_consumption_witness :
    nextRowStatusAfter (buildResultSet [SemType.TInt32] "" "" "" "" "" "" ""
        1440 QueryResultFormat.JSON
        [ChunkPayload.jsonChunk [[some "1"], [some "2"]]]) 1 =
      SFStatus.Success ∧
    nextRowStatusAfter (buildResultSet [SemType.TInt32] "" "" "" "" "" "" ""
        1440 QueryResultFormat.JSON
        [ChunkPayload.jsonChunk [[some "1"], [some "2"]]]) 2 =
      SFStatus.EndOfResult ∧
    nextRowStatusAfter (buildResultSet [SemType.TInt32] "" "" "" "" "" "" ""
        1440 QueryResultFormat.JSON
        [ChunkPayload.jsonChunk [[some "1"], [some "2"]]]) 3 =
      SFStatus.EndOfResult := by
  refine ⟨?_, ?_, ?_⟩
  · rw [C1_row_consumption [SemType.TInt32] "" "" "" "" "" "" "" 1440
      QueryResultFormat.JSON [ChunkPayload.jsonChunk [[some "1"], [some "2"]]]
      (by decide) 1]
    decide
  · rw [C1_row_consumption [SemType.TInt32] "" "" "" "" "" "" "" 1440
      QueryResultFormat.JSON [ChunkPayload.jsonChunk [[some "1"], [some "2"]]]
      (by decide) 2]
    decide
  · rw [C1_row_consumption [SemType.TInt32] "" "" "" "" "" "" "" 1440
      QueryResultFormat.JSON [ChunkPayload.jsonChunk [[some "1"], [some "2"]]]
      (by decide) 3]
    decide

/-- After `finishResultSet`, the lifecycle flag is set no matter what it
was before. -/
theorem finishResultSet_sets_finished (s : ResultSet) :
    ((finishResultSet s).2).finished = true := by
  by_cases hx : s.finished
  · simp [finishResultSet, hx]
  · simp [finishResultSet, hx]

/-- **C5**: calling `appendChunk` after `finishResultSet`, or calling
`finishResultSet` a second time, fails with `InvalidState` and leaves
the whole state — chunk store, totals and cursor — unchanged; in
particular, in the sequence append, append, finalize, append the final
append returns `InvalidState`. -/
theorem C5_invalid_state_protocol (s : ResultSet) (c : ChunkPayload)
    (h : s.finished = true) :
    appendChunk s c = (SFStatus.InvalidState, s) ∧
    finishResultSet s = (SFStatus.InvalidState, s) ∧
    (∀ (s0 : ResultSet) (c1 c2 c3 : ChunkPayload),
      (appendChunk
        (finishResultSet (appendChunk (appendChunk s0 c1).2 c2).2).2 c3).1 =
        SFStatus.InvalidState) := by
  refine ⟨by simp [appendChunk, h], by simp [finishResultSet, h], ?_⟩
  intro s0 c1 c2 c3
  simp [appendChunk, finishResultSet_sets_finished]

/-- Witness for C5: appending to, or re-finalizing, a concrete finalized
result set returns `InvalidState` with the state intact. -/
theorem C5_invalid_state_protocol_witness :
    appendChunk (buildResultSet [] "" "" "" "" "" "" "" 1440
        QueryResultFormat.ARROW []) (ChunkPayload.jsonChunk []) =
      (SFStatus.InvalidState,
        buildResultSet [] "" "" "" "" "" "" "" 1440 QueryResultFormat.ARROW []) ∧
    finishResultSet (buildResultSet [] "" "" "" "" "" "" "" 1440
        QueryResultFormat.ARROW []) =
      (SFStatus.InvalidState,
        buildResultSet [] "" "" "" "" "" "" "" 1440 QueryResultFormat.ARROW []) := by
  have h := C5_invalid_state_protocol
    (buildResultSet [] "" "" "" "" "" "" "" 1440 QueryResultFormat.ARROW [])
    (ChunkPayload.jsonChunk []) (by decide)
  exact ⟨h.1, h.2.1⟩

/-- **C7**: before finalization, a chunk whose declared column count
disagrees with the Column Catalog's column count is rejected by
`appendChunk` with `ColumnCountMismatch`, leaving the state unchanged. -/
theorem C7_column_count_mismatch (s : ResultSet) (c : ChunkPayload)
    (hfin : s.finished = false)
    (hbad : chunkColsOk s.totalColumnCount c = false) :
    appendChunk s c = (SFStatus.ColumnCountMismatch, s) := by
  simp [appendChunk, hfin, hbad]

/-- Witness for C7: a chunk declaring 3 columns against a 2-column
catalog is rejected with `ColumnCountMismatch`. -/
theorem C7_column_count_mismatch_witness :
    appendChunk
      (mkResultSet [SemType.TInt32, SemType.TString] "" "" "" "" "" "" ""
        1440 QueryResultFormat.ARROW)
      (ChunkPayload.arrowChunk [[], [], []]) =
    (SFStatus.ColumnCountMismatch,
      mkResultSet [SemType.TInt32, SemType.TString] "" "" "" "" "" "" ""
        1440 QueryResultFormat.ARROW) :=
  C7_column_count_mismatch _ _ (by decide) (by decide)

/-- **C8**: appending a chunk with zero rows followed by a chunk with
`K` rows and finalizing yields exactly `K` successful `nextRow` calls
(success exactly while `k < K`), and both the status of every call and
the logical row index after every call coincide with the build that
omits the empty chunk: the zero-row chunk is skipped transparently
without miscounting `logicalRowIndex`. -/
theorem C8_zero_row_chunk_transparent (meta : List SemType)
    (f1 f2 f3 f4 f5 f6 f7 : String) (tz : Int) (fmt : QueryResultFormat)
    (c0 cK : ChunkPayload)
    (hc0 : chunkRowCount c0 = 0)
    (hok0 : chunkColsOk meta.length c0 = true ∧ chunkWellFormed c0 = true)
    (hokK : chunkColsOk meta.length cK = true ∧ chunkWellFormed cK = true)
    (k : Nat) :
    nextRowStatusAfter
        (buildResultSet meta f1 f2 f3 f4 f5 f6 f7 tz fmt [c0, cK]) k =
      (if k < chunkRowCount cK then SFStatus.Success
       else SFStatus.EndOfResult) ∧
    nextRowStatusAfter
        (buildResultSet meta f1 f2 f3 f4 f5 f6 f7 tz fmt [c0, cK]) k =
      nextRowStatusAfter
        (buildResultSet meta f1 f2 f3 f4 f5 f6 f7 tz fmt [cK]) k ∧
    (advanceN (buildResultSet meta f1 f2 f3 f4 f5 f6 f7 tz fmt [c0, cK])
        k).currRowIdx =
      (advanceN (buildResultSet meta f1 f2 f3 f4 f5 f6 f7 tz fmt [cK])
        k).currRowIdx := by
  have hokA : ∀ c ∈ [c0, cK], chunkColsOk meta.length c = true ∧
      chunkWellFormed c = true := by
    intro x hx
    rcases List.mem_cons.mp hx with h | h
    · rw [h]; exact hok0
    · rw [List.mem_singleton.mp h]; exact hokK
  have hokB : ∀ c ∈ [cK], chunkColsOk meta.length c = true ∧
      chunkWellFormed c = true := by
    intro x hx
    rw [List.mem_singleton.mp hx]
    exact hokK
  have hrA := (reached_build meta f1 f2 f3 f4 f5 f6 f7 tz fmt [c0, cK] hokA).1
  have hrB := (reached_build meta f1 f2 f3 f4 f5 f6 f7 tz fmt [cK] hokB).1
  have hsA : sumRows [c0, cK] = chunkRowCount cK := by
    rw [sumRows_cons, sumRows_cons, sumRows_nil, hc0]
    ring
  have hsB : sumRows [cK] = chunkRowCount cK := by
    rw [sumRows_cons, sumRows_nil]
    ring
  have h1 := nextRowStatusAfter_spec _ _ hrA k
  have h2 := nextRowStatusAfter_spec _ _ hrB k
  have h3 := currRowIdx_advanceN _ _ hrA k
  have h4 := currRowIdx_advanceN _ _ hrB k
  rw [hsA] at h1 h3
  rw [hsB] at h2 h4
  exact ⟨h1, by rw [h1, h2], by rw [h3, h4]⟩

/-- Witness for C8: an empty JSON chunk followed by a one-row JSON chunk
gives one success, then `EndOfResult`, matching the build without the
empty chunk. -/
theorem C8_zero_row_chunk_transparent_witness :
    nextRowStatusAfter (buildResultSet [SemType.TInt32] "" "" "" "" "" "" ""
        1440 QueryResultFormat.JSON
        [ChunkPayload.jsonChunk [], ChunkPayload.jsonChunk [[some "7"]]]) 0 =
      SFStatus.Success ∧
    nextRowStatusAfter (buildResultSet [SemType.TInt32] "" "" "" "" "" "" ""
        1440 QueryResultFormat.JSON
        [ChunkPayload.jsonChunk [], ChunkPayload.jsonChunk [[some "7"]]]) 1 =
      SFStatus.EndOfResult ∧
    (advanceN (buildResultSet [SemType.TInt32] "" "" "" "" "" "" "" 1440
        QueryResultFormat.JSON
        [ChunkPayload.jsonChunk [], ChunkPayload.jsonChunk [[some "7"]]])
        1).currRowIdx =
      (advanceN (buildResultSet [SemType.TInt32] "" "" "" "" "" "" "" 1440
        QueryResultFormat.JSON [ChunkPayload.jsonChunk [[some "7"]]])
        1).currRowIdx := by
  have h0 := C8_zero_row_chunk_transparent [SemType.TInt32] "" "" "" "" "" ""
    "" 1440 QueryResultFormat.JSON (ChunkPayload.jsonChunk [])
    (ChunkPayload.jsonChunk [[some "7"]]) (by decide) (by decide) (by decide) 0
  have h1 := C8_zero_row_chunk_transparent [SemType.TInt32] "" "" "" "" "" ""
    "" 1440 QueryResultFormat.JSON (ChunkPayload.jsonChunk [])
    (ChunkPayload.jsonChunk [[some "7"]]) (by decide) (by decide) (by decide) 1
  refine ⟨?_, ?_, h1.2.2⟩
  · rw [h0.1]
    decide
  · rw [h1.1]
    decide

/-- **C3**: encoding a true timezone offset in `[-1440, 1440]` minutes as
the stored value `true_offset + 1440` (persisted range `[0, 2880]`) and
decoding by subtracting 1440 reproduces the true offset exactly; the
true offset 0 round-trips through stored value 1440 and `initTzString`
renders it as `"+00:00"`; and `getTzOffset` on a result set constructed
with the stored encoding returns the decoded signed offset, not the
stored non-negative value. -/
theorem C3_tz_offset_roundtrip (t : Int) (h1 : -1440 ≤ t) (h2 : t ≤ 1440)
    (meta : List SemType) (f1 f2 f3 f4 f5 f6 f7 : String)
    (fmt : QueryResultFormat) :
    decodeTzOffset (encodeTzOffset t) = t ∧
    (0 ≤ encodeTzOffset t ∧ encodeTzOffset t ≤ 2880) ∧
    encodeTzOffset 0 = 1440 ∧
    initTzString (encodeTzOffset 0) = "+00:00" ∧
    getTzOffset (mkResultSet meta f1 f2 f3 f4 f5 f6 f7 (encodeTzOffset t)
      fmt) = t := by
  refine ⟨?_, ⟨by unfold encodeTzOffset; omega, by unfold encodeTzOffset; omega⟩,
    rfl, by decide, ?_⟩
  · unfold decodeTzOffset encodeTzOffset
    ring
  · show decodeTzOffset (encodeTzOffset t) = t
    unfold decodeTzOffset encodeTzOffset
    ring

/-- Witness for C3: the offset `-300` (UTC-05:00) round-trips through
stored value `1140`, and stored `1440` renders as `"+00:00"`. -/
theorem C3_tz_offset_roundtrip_witness :
    decodeTzOffset (encodeTzOffset (-300)) = -300 ∧
    initTzString (encodeTzOffset 0) = "+00:00" := by
  have h := C3_tz_offset_roundtrip (-300) (by decide) (by decide)
    [] "" "" "" "" "" "" "" QueryResultFormat.JSON
  exact ⟨h.1, h.2.2.2.1⟩

/-- The format-template strings held by a result set, in header order
(src/cpp/lib/ResultSet.hpp declares seven such members, lines
305-338). -/
def formatStrings (s : ResultSet) : List String :=
  [s.binaryOutputFormat, s.dateOutputFormat, s.timeOutputFormat,
   s.timestampOutputFormat, s.timestampLtzOutputFormat,
   s.timestampNtzOutputFormat, s.timestampTzOutputFormat]

theorem appendChunk_preserves_config (s : ResultSet) (c : ChunkPayload) :
    formatStrings (appendChunk s c).2 = formatStrings s ∧
    ((appendChunk s c).2).queryResultFormat = s.queryResultFormat := by
  unfold appendChunk
  split
  · exact ⟨rfl, rfl⟩
  · split
    · exact ⟨rfl, rfl⟩
    · split
      · exact ⟨rfl, rfl⟩
      · exact ⟨rfl, rfl⟩

theorem finishResultSet_preserves_config (s : ResultSet) :
    formatStrings (finishResultSet s).2 = formatStrings s ∧
    ((finishResultSet s).2).queryResultFormat = s.queryResultFormat := by
  unfold finishResultSet
  split
  · exact ⟨rfl, rfl⟩
  · exact ⟨rfl, rfl⟩

theorem nextRow_preserves_config (s : ResultSet) :
    formatStrings (nextRow s).2 = formatStrings s ∧
    ((nextRow s).2).queryResultFormat = s.queryResultFormat := by
  simp only [nextRow]
  split
  · exact ⟨rfl, rfl⟩
  · split
    · exact ⟨rfl, rfl⟩
    · exact ⟨rfl, rfl⟩

theorem nextColumn_preserves_config (s : ResultSet) :
    formatStrings (nextColumn s).2 = formatStrings s ∧
    ((nextColumn s).2).queryResultFormat = s.queryResultFormat := by
  unfold nextColumn
  split
  · exact ⟨rfl, rfl⟩
  · split
    · exact ⟨rfl, rfl⟩
    · exact ⟨rfl, rfl⟩

/-- **C6** counterexample: the claim says the result set holds "exactly
six" format-template strings, but the header declares seven output
format members (binary, date, time, timestamp, timestamp-ltz,
timestamp-ntz, timestamp-tz; src/cpp/lib/ResultSet.hpp lines 305-338):
at a concrete state the list of format strings has length 7, not 6. -/
theorem C6_counterexample :
    (formatStrings (mkResultSet [] "b" "d" "t" "s1" "s2" "s3" "s4" 1440
      QueryResultFormat.ARROW)).length = 7 ∧ (7 : Nat) ≠ 6 := by
  decide

/-- **C6** (amended): the result set holds exactly SEVEN independent
format-template strings — binary, date, time, timestamp, timestamp-ltz,
timestamp-ntz and timestamp-tz output formats — each set once at
construction from the session parameters and left unchanged by every
subsequent operation (append, finalize, cursor advance, and every cell
read). -/
theorem C6_format_strings_immutable (s : ResultSet) (meta : List SemType)
    (f1 f2 f3 f4 f5 f6 f7 : String) (tz : Int) (fmt : QueryResultFormat)
    (c : ChunkPayload) (cap : Nat) :
    (formatStrings s).length = 7 ∧
    formatStrings (mkResultSet meta f1 f2 f3 f4 f5 f6 f7 tz fmt) =
      [f1, f2, f3, f4, f5, f6, f7] ∧
    formatStrings (appendChunk s c).2 = formatStrings s ∧
    formatStrings (finishResultSet s).2 = formatStrings s ∧
    formatStrings (nextRow s).2 = formatStrings s ∧
    formatStrings (nextColumn s).2 = formatStrings s ∧
    formatStrings (getCurrCellAsBool s).2 = formatStrings s ∧
    formatStrings (getCurrCellAsInt8 s).2 = formatStrings s ∧
    formatStrings (getCurrCellAsInt32 s).2 = formatStrings s ∧
    formatStrings (getCurrCellAsInt64 s).2 = formatStrings s ∧
    formatStrings (getCurrCellAsUint8 s).2 = formatStrings s ∧
    formatStrings (getCurrCellAsUint32 s).2 = formatStrings s ∧
    formatStrings (getCurrCellAsUint64 s).2 = formatStrings s ∧
    formatStrings (getCurrCellAsFloat64 s).2 = formatStrings s ∧
    formatStrings (getCurrCellAsConstString s).2 = formatStrings s ∧
    formatStrings (getCurrCellAsString s cap).2 = formatStrings s ∧
    formatStrings (getCurrCellAsTimestamp s).2 = formatStrings s :=
  ⟨rfl, rfl, (appendChunk_preserves_config s c).1,
    (finishResultSet_preserves_config s).1, (nextRow_preserves_config s).1,
    (nextColumn_preserves_config s).1, rfl, rfl, rfl, rfl, rfl, rfl, rfl,
    rfl, rfl, rfl, rfl⟩

/-- **C10**: the query result format returned by `getQueryResultFormat`
is one of exactly the two enumerators `ARROW` and `JSON` (the source
enum has no other values), equals the format given at construction, and
is unchanged by `appendChunk`, `finishResultSet`, `nextRow`,
`nextColumn` and every cell accessor. -/
theorem C10_query_result_format_fixed (s : ResultSet) (meta : List SemType)
    (f1 f2 f3 f4 f5 f6 f7 : String) (tz : Int) (fmt : QueryResultFormat)
    (c : ChunkPayload) (cap : Nat) :
    (getQueryResultFormat s = QueryResultFormat.ARROW ∨
      getQueryResultFormat s = QueryResultFormat.JSON) ∧
    getQueryResultFormat (mkResultSet meta f1 f2 f3 f4 f5 f6 f7 tz fmt) =
      fmt ∧
    getQueryResultFormat (appendChunk s c).2 = getQueryResultFormat s ∧
    getQueryResultFormat (finishResultSet s).2 = getQueryResultFormat s ∧
    getQueryResultFormat (nextRow s).2 = getQueryResultFormat s ∧
    getQueryResultFormat (nextColumn s).2 = getQueryResultFormat s ∧
    getQueryResultFormat (getCurrCellAsBool s).2 = getQueryResultFormat s ∧
    getQueryResultFormat (getCurrCellAsInt8 s).2 = getQueryResultFormat s ∧
    getQueryResultFormat (getCurrCellAsInt32 s).2 = getQueryResultFormat s ∧
    getQueryResultFormat (getCurrCellAsInt64 s).2 = getQueryResultFormat s ∧
    getQueryResultFormat (getCurrCellAsUint8 s).2 = getQueryResultFormat s ∧
    getQueryResultFormat (getCurrCellAsUint32 s).2 = getQueryResultFormat s ∧
    getQueryResultFormat (getCurrCellAsUint64 s).2 = getQueryResultFormat s ∧
    getQueryResultFormat (getCurrCellAsFloat64 s).2 = getQueryResultFormat s ∧
    getQueryResultFormat (getCurrCellAsConstString s).2 =
      getQueryResultFormat s ∧
    getQueryResultFormat (getCurrCellAsString s cap).2 =
      getQueryResultFormat s ∧
    getQueryResultFormat (getCurrCellAsTimestamp s).2 =
      getQueryResultFormat s := by
  refine ⟨?_, rfl, (appendChunk_preserves_config s c).2,
    (finishResultSet_preserves_config s).2, (nextRow_preserves_config s).2,
    (nextColumn_preserves_config s).2, rfl, rfl, rfl, rfl, rfl, rfl, rfl,
    rfl, rfl, rfl, rfl⟩
  cases h : s.queryResultFormat
  · exact Or.inl h
  · exact Or.inr h

/-- **C9**: every typed cell accessor leaves the result-set state
unchanged, so reading the same in-bounds cell twice without advancing
the cursor returns the identical status and value on both reads; a cell
may be re-read any number of times with the same result.  (The
hypotheses express that the cursor sits on an in-bounds (row, column)
position, as the claim assumes.) -/
theorem C9_read_idempotent (s : ResultSet) (cap : Nat)
    (hfin : s.finished = true) (hrow0 : 0 ≤ s.currRowIdx)
    (hrowlt : s.currRowIdx < (s.totalRowCount : Int))
    (hcol : s.currColumnIdx < s.totalColumnCount) :
    ((getCurrCellAsBool s).2 = s ∧
      getCurrCellAsBool (getCurrCellAsBool s).2 = getCurrCellAsBool s) ∧
    ((getCurrCellAsInt8 s).2 = s ∧
      getCurrCellAsInt8 (getCurrCellAsInt8 s).2 = getCurrCellAsInt8 s) ∧
    ((getCurrCellAsInt32 s).2 = s ∧
      getCurrCellAsInt32 (getCurrCellAsInt32 s).2 = getCurrCellAsInt32 s) ∧
    ((getCurrCellAsInt64 s).2 = s ∧
      getCurrCellAsInt64 (getCurrCellAsInt64 s).2 = getCurrCellAsInt64 s) ∧
    ((getCurrCellAsUint8 s).2 = s ∧
      getCurrCellAsUint8 (getCurrCellAsUint8 s).2 = getCurrCellAsUint8 s) ∧
    ((getCurrCellAsUint32 s).2 = s ∧
      getCurrCellAsUint32 (getCurrCellAsUint32 s).2 = getCurrCellAsUint32 s) ∧
    ((getCurrCellAsUint64 s).2 = s ∧
      getCurrCellAsUint64 (getCurrCellAsUint64 s).2 = getCurrCellAsUint64 s) ∧
    ((getCurrCellAsFloat64 s).2 = s ∧
      getCurrCellAsFloat64 (getCurrCellAsFloat64 s).2 =
        getCurrCellAsFloat64 s) ∧
    ((getCurrCellAsConstString s).2 = s ∧
      getCurrCellAsConstString (getCurrCellAsConstString s).2 =
        getCurrCellAsConstString s) ∧
    ((getCurrCellAsString s cap).2 = s ∧
      getCurrCellAsString (getCurrCellAsString s cap).2 cap =
        getCurrCellAsString s cap) ∧
    ((getCurrCellAsTimestamp s).2 = s ∧
      getCurrCellAsTimestamp (getCurrCellAsTimestamp s).2 =
        getCurrCellAsTimestamp s) :=
  ⟨⟨rfl, rfl⟩, ⟨rfl, rfl⟩, ⟨rfl, rfl⟩, ⟨rfl, rfl⟩, ⟨rfl, rfl⟩, ⟨rfl, rfl⟩,
    ⟨rfl, rfl⟩, ⟨rfl, rfl⟩, ⟨rfl, rfl⟩, ⟨rfl, rfl⟩, ⟨rfl, rfl⟩⟩

/-- Witness for C9: re-reading a concrete in-bounds string cell twice
yields the identical result. -/
theorem C9_read_idempotent_witness :
    getCurrCellAsConstString
        (getCurrCellAsConstString
          (advanceN (buildResultSet [SemType.TString] "" "" "" "" "" "" ""
            1440 QueryResultFormat.JSON
            [ChunkPayload.jsonChunk [[some "ab"]]]) 1)).2 =
      getCurrCellAsConstString
        (advanceN (buildResultSet [SemType.TString] "" "" "" "" "" "" ""
          1440 QueryResultFormat.JSON
          [ChunkPayload.jsonChunk [[some "ab"]]]) 1) :=
  (C9_read_idempotent
    (advanceN (buildResultSet [SemType.TString] "" "" "" "" "" "" ""
      1440 QueryResultFormat.JSON [ChunkPayload.jsonChunk [[some "ab"]]]) 1)
    0 (by decide) (by decide) (by decide) (by decide)).2.2.2.2.2.2.2.2.1.2

/-- **C4** counterexample: with the 2-character string cell `"ab"` under
the cursor and a caller buffer of capacity 1, `getCurrCellAsString` does
not fail with `BufferTooSmall`: it returns `Success`, writes the full
value and grows the reported capacity to 3 — the re-allocation contract
documented in the header (src/cpp/lib/ResultSet.hpp, lines 173-185),
which contradicts the claimed restart-with-larger-buffer protocol. -/
theorem C4_counterexample :
    ((getCurrCellAsString (advanceN (buildResultSet [SemType.TString] "" ""
        "" "" "" "" "" 1440 QueryResultFormat.JSON
        [ChunkPayload.jsonChunk [[some "ab"]]]) 1) 1).1.1 ≠
      SFStatus.BufferTooSmall) ∧
    (getCurrCellAsString (advanceN (buildResultSet [SemType.TString] "" ""
        "" "" "" "" "" 1440 QueryResultFormat.JSON
        [ChunkPayload.jsonChunk [[some "ab"]]]) 1) 1).1 =
      (SFStatus.Success, "ab", 2, 3) := by
  decide

/-- **C4** (amended): per the contract documented in the header
(src/cpp/lib/ResultSet.hpp, lines 173-185), when the caller-provided
buffer cannot hold the rendered value `getCurrCellAsString` does not
fail with `BufferTooSmall`; it re-allocates, writes the full rendered
value, returns success, and updates `io_capacity` to the value's length
plus the terminating NUL.  A subsequent call with the updated capacity
also succeeds and returns the same full value (no partial write in
either call). -/
theorem C4_string_buffer_realloc (s : ResultSet) (v : CellValue)
    (cap : Nat) (hcell : currCell s = some v)
    (hsmall : cap < ((displayText v).getD "").length + 1) :
    (getCurrCellAsString s cap).1 =
      (SFStatus.Success, (displayText v).getD "",
        ((displayText v).getD "").length,
        ((displayText v).getD "").length + 1) ∧
    (getCurrCellAsString s (((displayText v).getD "").length + 1)).1 =
      (SFStatus.Success, (displayText v).getD "",
        ((displayText v).getD "").length,
        ((displayText v).getD "").length + 1) := by
  constructor
  · simp [getCurrCellAsString, hcell, hsmall]
  · simp [getCurrCellAsString, hcell]

/-- Witness for C4 (amended): the concrete `"ab"` cell with capacity 1
succeeds reporting capacity 3, and the retry with capacity 3 returns
the same full value. -/
theorem C4_string_buffer_realloc_witness :
    (getCurrCellAsString (advanceN (buildResultSet [SemType.TString] "" ""
        "" "" "" "" "" 1440 QueryResultFormat.JSON
        [ChunkPayload.jsonChunk [[some "ab"]]]) 1) 1).1 =
      (SFStatus.Success, "ab", 2, 3) ∧
    (getCurrCellAsString (advanceN (buildResultSet [SemType.TString] "" ""
        "" "" "" "" "" 1440 QueryResultFormat.JSON
        [ChunkPayload.jsonChunk [[some "ab"]]]) 1) 3).1 =
      (SFStatus.Success, "ab", 2, 3) := by
  have h := C4_string_buffer_realloc
    (advanceN (buildResultSet [SemType.TString] "" "" "" "" "" "" "" 1440
      QueryResultFormat.JSON [ChunkPayload.jsonChunk [[some "ab"]]]) 1)
    (CellValue.strV "ab") 1 (by decide) (by decide)
  exact ⟨h.1, h.2⟩

/-! ## Cross-format equivalence: one logical table, two encodings -/

/-- Modelled from the spec (§4.4): a logical table — the common content
description from which each variant's chunk payload is encoded. -/
structure LogicalTable where
  types : List SemType
  rows : List (List CellValue)
deriving DecidableEq, Repr

/-- Every row is rectangular (exactly one cell per catalog column) and
every cell matches its column's declared type. -/
def wfTable (tbl : LogicalTable) : Bool :=
  tbl.rows.all (fun row =>
    (row.length == tbl.types.length) &&
      (List.range tbl.types.length).all (fun c =>
        wfCell (tbl.types.getD c SemType.TBool)
          (row.getD c CellValue.nullV)))

/-- Modelled from the spec (§4.4): the columnar-variant encoding of a
table — a set of parallel typed columns. -/
def encodeArrowChunk (tbl : LogicalTable) : ChunkPayload :=
  ChunkPayload.arrowChunk ((List.range tbl.types.length).map
    (fun c => tbl.rows.map (fun row => row.getD c CellValue.nullV)))

/-- Modelled from the spec (§4.4): the row-oriented (JSON) encoding of a
table — rows of nullable cell text. -/
def encodeJsonChunk (tbl : LogicalTable) : ChunkPayload :=
  ChunkPayload.jsonChunk (tbl.rows.map (fun row => row.map wireText))

/-- Builds a result set from one encoded chunk and walks the cursor to
cell `(r, c)`: `r + 1` row advances, then `c` column advances. -/
def cellCursor (meta : List SemType) (f1 f2 f3 f4 f5 f6 f7 : String)
    (tz : Int) (fmt : QueryResultFormat) (ch : ChunkPayload)
    (r c : Nat) : ResultSet :=
  advanceColN
    (advanceN (buildResultSet meta f1 f2 f3 f4 f5 f6 f7 tz fmt [ch]) (r + 1))
    c

theorem nextRow_preserves_static (s : ResultSet) :
    ((nextRow s).2).metadata = s.metadata ∧
    ((nextRow s).2).totalColumnCount = s.totalColumnCount := by
  simp only [nextRow]
  split
  · exact ⟨rfl, rfl⟩
  · split
    · exact ⟨rfl, rfl⟩
    · exact ⟨rfl, rfl⟩

theorem advanceN_preserves_static (s : ResultSet) (n : Nat) :
    (advanceN s n).metadata = s.metadata ∧
    (advanceN s n).totalColumnCount = s.totalColumnCount := by
  induction n with
  | zero => exact ⟨rfl, rfl⟩
  | succ n ih =>
    have h := nextRow_preserves_static (advanceN s n)
    exact ⟨h.1.trans ih.1, h.2.trans ih.2⟩

/-- The observable fields of the cursor parked on cell `(r, c)` of a
single-chunk result set. -/
theorem cellCursor_fields (meta : List SemType)
    (f1 f2 f3 f4 f5 f6 f7 : String) (tz : Int) (fmt : QueryResultFormat)
    (ch : ChunkPayload) (r c : Nat)
    (hok : chunkColsOk meta.length ch = true ∧ chunkWellFormed ch = true)
    (hr : r < chunkRowCount ch) (hc : c < meta.length) :
    (cellCursor meta f1 f2 f3 f4 f5 f6 f7 tz fmt ch r c).finished = true ∧
    0 ≤ (cellCursor meta f1 f2 f3 f4 f5 f6 f7 tz fmt ch r c).currRowIdx ∧
    (cellCursor meta f1 f2 f3 f4 f5 f6 f7 tz fmt ch r c).chunks = [ch] ∧
    (cellCursor meta f1 f2 f3 f4 f5 f6 f7 tz fmt ch r c).currChunkIdx = 0 ∧
    (cellCursor meta f1 f2 f3 f4 f5 f6 f7 tz fmt ch r c).currChunkRowIdx =
      r ∧
    (cellCursor meta f1 f2 f3 f4 f5 f6 f7 tz fmt ch r c).currColumnIdx =
      c ∧
    (cellCursor meta f1 f2 f3 f4 f5 f6 f7 tz fmt ch r c).metadata = meta := by
  have hokL : ∀ x ∈ [ch], chunkColsOk meta.length x = true ∧
      chunkWellFormed x = true := by
    intro x hx
    rw [List.mem_singleton.mp hx]
    exact hok
  have hb := reached_build meta f1 f2 f3 f4 f5 f6 f7 tz fmt [ch] hokL
  have hR : sumRows [ch] = chunkRowCount ch := by
    rw [sumRows_cons, sumRows_nil]
    ring
  have hreach := reached_advanceN [ch] _ hb.1 (r + 1) (by omega)
  obtain ⟨hchunks, hfin, hrow, hpos⟩ := hreach
  rcases hpos with h0 | ⟨⟨hci, hri, hsum⟩, hcol0⟩
  · omega
  · have hlen1 : ([ch] : List ChunkPayload).length = 1 := rfl
    rw [hlen1] at hci
    have hci0 : (advanceN
        (buildResultSet meta f1 f2 f3 f4 f5 f6 f7 tz fmt [ch])
        (r + 1)).currChunkIdx = 0 := by omega
    rw [hci0] at hsum
    have hsum0 : sumRows (List.take 0 [ch]) = 0 := rfl
    rw [hsum0] at hsum
    have hri_r : (advanceN
        (buildResultSet meta f1 f2 f3 f4 f5 f6 f7 tz fmt [ch])
        (r + 1)).currChunkRowIdx = r := by omega
    have hstatic := advanceN_preserves_static
      (buildResultSet meta f1 f2 f3 f4 f5 f6 f7 tz fmt [ch]) (r + 1)
    have hcolcnt : (advanceN
        (buildResultSet meta f1 f2 f3 f4 f5 f6 f7 tz fmt [ch])
        (r + 1)).totalColumnCount = meta.length := by
      rw [hstatic.2, hb.2.1]
    have hcadv := advanceColN_fields
      (advanceN (buildResultSet meta f1 f2 f3 f4 f5 f6 f7 tz fmt [ch])
        (r + 1)) c hfin (by rw [hcol0, hcolcnt]; omega)
    unfold cellCursor
    rw [hcadv]
    refine ⟨hfin, ?_, hchunks, hci0, hri_r, ?_, hstatic.1.trans hb.2.2.1⟩
    · show 0 ≤ (advanceN
        (buildResultSet meta f1 f2 f3 f4 f5 f6 f7 tz fmt [ch])
        (r + 1)).currRowIdx
      rw [hrow]
      push_cast
      omega
    · show (advanceN (buildResultSet meta f1 f2 f3 f4 f5 f6 f7 tz fmt [ch])
        (r + 1)).currColumnIdx + c = c
      rw [hcol0]
      omega

theorem wfTable_row (tbl : LogicalTable) (hwf : wfTable tbl = true)
    (row : List CellValue) (hrow : row ∈ tbl.rows) :
    row.length = tbl.types.length ∧
    ∀ c, c < tbl.types.length →
      wfCell (tbl.types.getD c SemType.TBool)
        (row.getD c CellValue.nullV) = true := by
  unfold wfTable at hwf
  rw [List.all_eq_true] at hwf
  have h := hwf row hrow
  rw [Bool.and_eq_true] at h
  constructor
  · simpa using h.1
  · intro c hc
    have h2 := h.2
    rw [List.all_eq_true] at h2
    exact h2 c (List.mem_range.mpr hc)

theorem encodeArrowChunk_ok (tbl : LogicalTable) :
    chunkColsOk tbl.types.length (encodeArrowChunk tbl) = true ∧
    chunkWellFormed (encodeArrowChunk tbl) = true := by
  constructor
  · simp [chunkColsOk, encodeArrowChunk]
  · rcases hn : tbl.types.length with _ | n
    · simp [chunkWellFormed, encodeArrowChunk, hn]
    · unfold chunkWellFormed encodeArrowChunk
      rw [hn, List.range_succ_eq_map]
      simp [List.all_eq_true]

theorem encodeArrowChunk_rowCount (tbl : LogicalTable)
    (hpos : 0 < tbl.types.length) :
    chunkRowCount (encodeArrowChunk tbl) = tbl.rows.length := by
  unfold chunkRowCount encodeArrowChunk
  rcases hn : tbl.types.length with _ | n
  · omega
  · rw [List.range_succ_eq_map]
    simp

theorem encodeJsonChunk_ok (tbl : LogicalTable) (hwf : wfTable tbl = true) :
    chunkColsOk tbl.types.length (encodeJsonChunk tbl) = true ∧
    chunkWellFormed (encodeJsonChunk tbl) = true := by
  refine ⟨?_, rfl⟩
  unfold chunkColsOk encodeJsonChunk
  rw [List.all_eq_true]
  intro x hx
  rw [List.mem_map] at hx
  obtain ⟨row, hrow, hrfl⟩ := hx
  subst hrfl
  have hlen := (wfTable_row tbl hwf row hrow).1
  simp [hlen]

theorem encodeJsonChunk_rowCount (tbl : LogicalTable) :
    chunkRowCount (encodeJsonChunk tbl) = tbl.rows.length := by
  simp [chunkRowCount, encodeJsonChunk]

/-- The columnar variant's cell under the cursor at `(r, c)` is the
table's cell at `(r, c)`. -/
theorem currCell_cellCursor_arrow (tbl : LogicalTable)
    (f1 f2 f3 f4 f5 f6 f7 : String) (tz : Int) (r c : Nat)
    (hwf : wfTable tbl = true) (hr : r < tbl.rows.length)
    (hc : c < tbl.types.length) :
    currCell (cellCursor tbl.types f1 f2 f3 f4 f5 f6 f7 tz
      QueryResultFormat.ARROW (encodeArrowChunk tbl) r c) =
      some ((tbl.rows.getD r []).getD c CellValue.nullV) := by
  have hok := encodeArrowChunk_ok tbl
  have hrc : chunkRowCount (encodeArrowChunk tbl) = tbl.rows.length :=
    encodeArrowChunk_rowCount tbl (by omega)
  have hf := cellCursor_fields tbl.types f1 f2 f3 f4 f5 f6 f7 tz
    QueryResultFormat.ARROW (encodeArrowChunk tbl) r c hok (by omega) hc
  obtain ⟨hfin, hrow0, hchunks, hci, hri, hcol, hmeta⟩ := hf
  have hrowget : tbl.rows.get? r = some (tbl.rows.get ⟨r, hr⟩) :=
    List.get?_eq_get hr
  have hgetD : tbl.rows.getD r [] = tbl.rows.get ⟨r, hr⟩ :=
    List.getD_eq_get tbl.rows [] hr
  unfold currCell
  rw [if_pos ⟨hfin, hrow0⟩, hchunks, hci, hri, hcol]
  show (match ([ChunkPayload.arrowChunk ((List.range tbl.types.length).map
      (fun c => tbl.rows.map (fun row => row.getD c CellValue.nullV)))] :
        List ChunkPayload).get? 0 with
    | none => none
    | some (ChunkPayload.arrowChunk cols) =>
      (cols.get? c).bind (fun col => col.get? r)
    | some (ChunkPayload.jsonChunk rows) =>
      match (rows.get? r).bind (fun row => row.get? c),
          (cellCursor tbl.types f1 f2 f3 f4 f5 f6 f7 tz
            QueryResultFormat.ARROW (encodeArrowChunk tbl) r c).metadata.get?
            c with
      | some txt, some t => parseCell t txt
      | _, _ => none) = _
  have hcols : ((List.range tbl.types.length).map
      (fun c => tbl.rows.map (fun row => row.getD c CellValue.nullV))).get?
        c = some (tbl.rows.map (fun row => row.getD c CellValue.nullV)) := by
    rw [List.get?_map, List.get?_range hc]
    rfl
  simp only [List.get?_cons_zero, hcols, Option.bind_some, Option.some_bind]
  rw [List.get?_map, hrowget, hgetD]
  rfl

/-- The row-oriented variant's cell under the cursor at `(r, c)` decodes
back to the table's cell at `(r, c)`. -/
theorem currCell_cellCursor_json (tbl : LogicalTable)
    (f1 f2 f3 f4 f5 f6 f7 : String) (tz : Int) (r c : Nat)
    (hwf : wfTable tbl = true) (hr : r < tbl.rows.length)
    (hc : c < tbl.types.length) :
    currCell (cellCursor tbl.types f1 f2 f3 f4 f5 f6 f7 tz
      QueryResultFormat.JSON (encodeJsonChunk tbl) r c) =
      some ((tbl.rows.getD r []).getD c CellValue.nullV) := by
  have hok := encodeJsonChunk_ok tbl hwf
  have hrc : chunkRowCount (encodeJsonChunk tbl) = tbl.rows.length :=
    encodeJsonChunk_rowCount tbl
  have hf := cellCursor_fields tbl.types f1 f2 f3 f4 f5 f6 f7 tz
    QueryResultFormat.JSON (encodeJsonChunk tbl) r c hok (by omega) hc
  obtain ⟨hfin, hrow0, hchunks, hci, hri, hcol, hmeta⟩ := hf
  have hrowget : tbl.rows.get? r = some (tbl.rows.get ⟨r, hr⟩) :=
    List.get?_eq_get hr
  have hgetD : tbl.rows.getD r [] = tbl.rows.get ⟨r, hr⟩ :=
    List.getD_eq_get tbl.rows [] hr
  have hwfrow := wfTable_row tbl hwf (tbl.rows.get ⟨r, hr⟩)
    (List.get_mem tbl.rows r hr)
  have hclen : c < (tbl.rows.get ⟨r, hr⟩).length := by
    rw [hwfrow.1]
    exact hc
  have hcellget : (tbl.rows.get ⟨r, hr⟩).get? c =
      some ((tbl.rows.get ⟨r, hr⟩).get ⟨c, hclen⟩) := List.get?_eq_get hclen
  have hcellD : (tbl.rows.get ⟨r, hr⟩).getD c CellValue.nullV =
      (tbl.rows.get ⟨r, hr⟩).get ⟨c, hclen⟩ :=
    List.getD_eq_get (tbl.rows.get ⟨r, hr⟩) CellValue.nullV hclen
  have htyget : tbl.types.get? c = some (tbl.types.get ⟨c, hc⟩) :=
    List.get?_eq_get hc
  have htyD : tbl.types.getD c SemType.TBool = tbl.types.get ⟨c, hc⟩ :=
    List.getD_eq_get tbl.types SemType.TBool hc
  have hwfcell : wfCell (tbl.types.get ⟨c, hc⟩)
      ((tbl.rows.get ⟨r, hr⟩).get ⟨c, hclen⟩) = true := by
    have h := hwfrow.2 c hc
    rw [htyD, hcellD] at h
    exact h
  unfold currCell
  rw [if_pos ⟨hfin, hrow0⟩, hchunks, hci, hri, hcol, hmeta]
  show (match ([ChunkPayload.jsonChunk (tbl.rows.map
      (fun row => row.map wireText))] : List ChunkPayload).get? 0 with
    | none => none
    | some (ChunkPayload.arrowChunk cols) =>
      (cols.get? c).bind (fun col => col.get? r)
    | some (ChunkPayload.jsonChunk rows) =>
      match (rows.get? r).bind (fun row => row.get? c),
          tbl.types.get? c with
      | some txt, some t => parseCell t txt
      | _, _ => none) = _
  have hrows : (tbl.rows.map (fun row => row.map wireText)).get? r =
      some ((tbl.rows.get ⟨r, hr⟩).map wireText) := by
    rw [List.get?_map, hrowget]
    rfl
  have hcell : ((tbl.rows.get ⟨r, hr⟩).map wireText).get? c =
      some (wireText ((tbl.rows.get ⟨r, hr⟩).get ⟨c, hclen⟩)) := by
    rw [List.get?_map, hcellget]
    rfl
  simp only [List.get?_cons_zero, hrows, Option.some_bind, hcell, htyget]
  rw [parseCell_wireText _ _ hwfcell, hgetD, hcellD]

/-- **C2**: for every well-formed logical table, a columnar-variant
result set and a row-oriented (JSON) variant result set constructed
from that same content hold the same decoded cell at every in-bounds
`(r, c)` position — namely the table's own cell — and therefore return
identical `(status, value)` results under every typed cell accessor
(boolean, int8/32/64, uint8/32/64, float64, const-string, buffered
string, timestamp). -/
theorem C2_cross_format_equivalence (tbl : LogicalTable)
    (f1 f2 f3 f4 f5 f6 f7 : String) (tz : Int) (r c cap : Nat)
    (hwf : wfTable tbl = true) (hr : r < tbl.rows.length)
    (hc : c < tbl.types.length) :
    currCell (cellCursor tbl.types f1 f2 f3 f4 f5 f6 f7 tz
        QueryResultFormat.ARROW (encodeArrowChunk tbl) r c) =
      currCell (cellCursor tbl.types f1 f2 f3 f4 f5 f6 f7 tz
        QueryResultFormat.JSON (encodeJsonChunk tbl) r c) ∧
    currCell (cellCursor tbl.types f1 f2 f3 f4 f5 f6 f7 tz
        QueryResultFormat.ARROW (encodeArrowChunk tbl) r c) =
      some ((tbl.rows.getD r []).getD c CellValue.nullV) ∧
    (getCurrCellAsBool (cellCursor tbl.types f1 f2 f3 f4 f5 f6 f7 tz
        QueryResultFormat.ARROW (encodeArrowChunk tbl) r c)).1 =
      (getCurrCellAsBool (cellCursor tbl.types f1 f2 f3 f4 f5 f6 f7 tz
        QueryResultFormat.JSON (encodeJsonChunk tbl) r c)).1 ∧
    (getCurrCellAsInt8 (cellCursor tbl.types f1 f2 f3 f4 f5 f6 f7 tz
        QueryResultFormat.ARROW (encodeArrowChunk tbl) r c)).1 =
      (getCurrCellAsInt8 (cellCursor tbl.types f1 f2 f3 f4 f5 f6 f7 tz
        QueryResultFormat.JSON (encodeJsonChunk tbl) r c)).1 ∧
    (getCurrCellAsInt32 (cellCursor tbl.types f1 f2 f3 f4 f5 f6 f7 tz
        QueryResultFormat.ARROW (encodeArrowChunk tbl) r c)).1 =
      (getCurrCellAsInt32 (cellCursor tbl.types f1 f2 f3 f4 f5 f6 f7 tz
        QueryResultFormat.JSON (encodeJsonChunk tbl) r c)).1 ∧
    (getCurrCellAsInt64 (cellCursor tbl.types f1 f2 f3 f4 f5 f6 f7 tz
        QueryResultFormat.ARROW (encodeArrowChunk tbl) r c)).1 =
      (getCurrCellAsInt64 (cellCursor tbl.types f1 f2 f3 f4 f5 f6 f7 tz
        QueryResultFormat.JSON (encodeJsonChunk tbl) r c)).1 ∧
    (getCurrCellAsUint8 (cellCursor tbl.types f1 f2 f3 f4 f5 f6 f7 tz
        QueryResultFormat.ARROW (encodeArrowChunk tbl) r c)).1 =
      (getCurrCellAsUint8 (cellCursor tbl.types f1 f2 f3 f4 f5 f6 f7 tz
        QueryResultFormat.JSON (encodeJsonChunk tbl) r c)).1 ∧
    (getCurrCellAsUint32 (cellCursor tbl.types f1 f2 f3 f4 f5 f6 f7 tz
        QueryResultFormat.ARROW (encodeArrowChunk tbl) r c)).1 =
      (getCurrCellAsUint32 (cellCursor tbl.types f1 f2 f3 f4 f5 f6 f7 tz
        QueryResultFormat.JSON (encodeJsonChunk tbl) r c)).1 ∧
    (getCurrCellAsUint64 (cellCursor tbl.types f1 f2 f3 f4 f5 f6 f7 tz
        QueryResultFormat.ARROW (encodeArrowChunk tbl) r c)).1 =
      (getCurrCellAsUint64 (cellCursor tbl.types f1 f2 f3 f4 f5 f6 f7 tz
        QueryResultFormat.JSON (encodeJsonChunk tbl) r c)).1 ∧
    (getCurrCellAsFloat64 (cellCursor tbl.types f1 f2 f3 f4 f5 f6 f7 tz
        QueryResultFormat.ARROW (encodeArrowChunk tbl) r c)).1 =
      (getCurrCellAsFloat64 (cellCursor tbl.types f1 f2 f3 f4 f5 f6 f7 tz
        QueryResultFormat.JSON (encodeJsonChunk tbl) r c)).1 ∧
    (getCurrCellAsConstString (cellCursor tbl.types f1 f2 f3 f4 f5 f6 f7 tz
        QueryResultFormat.ARROW (encodeArrowChunk tbl) r c)).1 =
      (getCurrCellAsConstString (cellCursor tbl.types f1 f2 f3 f4 f5 f6 f7
        tz QueryResultFormat.JSON (encodeJsonChunk tbl) r c)).1 ∧
    (getCurrCellAsString (cellCursor tbl.types f1 f2 f3 f4 f5 f6 f7 tz
        QueryResultFormat.ARROW (encodeArrowChunk tbl) r c) cap).1 =
      (getCurrCellAsString (cellCursor tbl.types f1 f2 f3 f4 f5 f6 f7 tz
        QueryResultFormat.JSON (encodeJsonChunk tbl) r c) cap).1 ∧
    (getCurrCellAsTimestamp (cellCursor tbl.types f1 f2 f3 f4 f5 f6 f7 tz
        QueryResultFormat.ARROW (encodeArrowChunk tbl) r c)).1 =
      (getCurrCellAsTimestamp (cellCursor tbl.types f1 f2 f3 f4 f5 f6 f7 tz
        QueryResultFormat.JSON (encodeJsonChunk tbl) r c)).1 := by
  have hA := currCell_cellCursor_arrow tbl f1 f2 f3 f4 f5 f6 f7 tz r c
    hwf hr hc
  have hB := currCell_cellCursor_json tbl f1 f2 f3 f4 f5 f6 f7 tz r c
    hwf hr hc
  have h1 : currCell (cellCursor tbl.types f1 f2 f3 f4 f5 f6 f7 tz
      QueryResultFormat.ARROW (encodeArrowChunk tbl) r c) =
      currCell (cellCursor tbl.types f1 f2 f3 f4 f5 f6 f7 tz
      QueryResultFormat.JSON (encodeJsonChunk tbl) r c) := hA.trans hB.symm
  refine ⟨h1, hA, ?_, ?_, ?_, ?_, ?_, ?_, ?_, ?_, ?_, ?_, ?_⟩
  · simp only [getCurrCellAsBool, h1]
  · simp only [getCurrCellAsInt8, h1]
  · simp only [getCurrCellAsInt32, h1]
  · simp only [getCurrCellAsInt64, h1]
  · simp only [getCurrCellAsUint8, h1]
  · simp only [getCurrCellAsUint32, h1]
  · simp only [getCurrCellAsUint64, h1]
  · simp only [getCurrCellAsFloat64, h1]
  · simp only [getCurrCellAsConstString, h1]
  · simp only [getCurrCellAsString, h1]
  · simp only [getCurrCellAsTimestamp, h1]

/-- Witness for C2: the spec §8 scenario table — catalog
`[int32, string]` with rows `[(1, "a"), (2, "bb")]` — read at `(1, 1)`
yields the cell `"bb"` in both variants with identical accessor
results. -/
theorem C2_cross_format_equivalence_witness :
    currCell (cellCursor [SemType.TInt32, SemType.TString] "" "" "" "" ""
        "" "" 1440 QueryResultFormat.ARROW
        (encodeArrowChunk
          ⟨[SemType.TInt32, SemType.TString],
            [[CellValue.intV 1, CellValue.strV "a"],
             [CellValue.intV 2, CellValue.strV "bb"]]⟩) 1 1) =
      some (CellValue.strV "bb") ∧
    (getCurrCellAsConstString (cellCursor [SemType.TInt32, SemType.TString]
        "" "" "" "" "" "" "" 1440 QueryResultFormat.ARROW
        (encodeArrowChunk
          ⟨[SemType.TInt32, SemType.TString],
            [[CellValue.intV 1, CellValue.strV "a"],
             [CellValue.intV 2, CellValue.strV "bb"]]⟩) 1 1)).1 =
      (getCurrCellAsConstString (cellCursor [SemType.TInt32,
        SemType.TString] "" "" "" "" "" "" "" 1440 QueryResultFormat.JSON
        (encodeJsonChunk
          ⟨[SemType.TInt32, SemType.TString],
            [[CellValue.intV 1, CellValue.strV "a"],
             [CellValue.intV 2, CellValue.strV "bb"]]⟩) 1 1)).1 := by
  have h := C2_cross_format_equivalence
    ⟨[SemType.TInt32, SemType.TString],
      [[CellValue.intV 1, CellValue.strV "a"],
       [CellValue.intV 2, CellValue.strV "bb"]]⟩
    "" "" "" "" "" "" "" 1440 1 1 0 (by decide) (by decide) (by decide)
  exact ⟨h.2.1, h.2.2.2.2.2.2.2.2.2.2.1⟩

end SnowflakeClient
